import Mathlib

/-!
# Verification of the erdos distributed dataflow runtime

Shallow embedding of the control- and data-plane subsystem of the erdos
repository, together with proofs that settle the frozen claims about it.

The embedding follows the Rust sources:
* `src/erdos/src/node/worker_node.rs` (Worker supervisor state machine),
* `src/erdos/src/communication/data_plane/stream_manager.rs` (stream manager),
* `src/erdos/src/communication/receivers.rs` (DataReceiver),
* `src/erdos/src/communication/data_plane/data_sender.rs` (DataSender),
* `src/erdos/src/node/handles.rs` (WorkerHandle),
* `src/erdos/src/dataflow/graph/mod.rs` (Job, AbstractOperator, AbstractStream).

Rust `HashMap`s are modelled as association lists (`lookupA` / `insertA` /
`eraseA`); `HashSet<StreamId>` is modelled as a duplicate-free `List StreamId`.
Components of the repository that are referenced but missing from the source
snapshot (the control-plane codec, the `JobGraph` accessors, the `Pusher`)
are modelled from the spec; each such definition is marked in its doc comment.
-/

namespace Erdos

/-! ## Association-list maps (model of `std::collections::HashMap`) -/

/-- Lookup in an association list; models `HashMap::get`. -/
def lookupA {α β : Type} [DecidableEq α] : List (α × β) → α → Option β
  | [], _ => none
  | (k, v) :: rest, k' => if k' = k then some v else lookupA rest k'

/-- Remove every binding of a key; helper for `insertA`, models `HashMap::remove`. -/
def eraseA {α β : Type} [DecidableEq α] (l : List (α × β)) (k : α) : List (α × β) :=
  l.filter (fun p => decide (p.1 ≠ k))

/-- Insert (or overwrite) a binding; models `HashMap::insert`. -/
def insertA {α β : Type} [DecidableEq α] (l : List (α × β)) (k : α) (v : β) :
    List (α × β) :=
  (k, v) :: eraseA l k

/-! ## Identifiers and the data model

`StreamId`, `OperatorId`, `WorkerId` are `Uuid`s in the source (128-bit opaque
values); the model represents them as naturals.  `JobGraphId` is a `String`
newtype in `dataflow/graph/mod.rs`. -/

abbrev StreamId := Nat
abbrev OperatorId := Nat
abbrev WorkerId := Nat
abbrev JobGraphId := String
/-- An opaque socket address (`std::net::SocketAddr`). -/
abbrev Addr := Nat

/-- `Job` from `dataflow/graph/mod.rs`: either an operator or the driver. -/
inductive Job : Type
  | operator (id : OperatorId)
  | driver
deriving DecidableEq, Repr

/-- `AbstractOperator` from `dataflow/graph/mod.rs`; the `config` and
`operator_type` fields are only used for logging / executor construction in
the code under study and are omitted. -/
structure AbstractOperator : Type where
  id : OperatorId
  read_streams : List StreamId
  write_streams : List StreamId
deriving DecidableEq, Repr

/-- `AbstractStream` from `dataflow/graph/mod.rs` (the payload type tag and
name are irrelevant to the claims; the source `Option<Job>` is unwrapped by
`get_source`, so the model stores the registered source directly). -/
structure AbstractStream : Type where
  id : StreamId
  source : Job
  destinations : List Job
deriving DecidableEq, Repr

/-- Modelled from the spec: the compiled `JobGraph` (its definition file
`dataflow/graph/job_graph.rs` is missing from the snapshot).  Per §3 of the
spec it is immutable, with operators keyed by `OperatorId` and streams keyed
by `StreamId`; `worker_node.rs` accesses it through `get_job` and
`get_stream`. -/
structure JobGraph : Type where
  id : JobGraphId
  operators : List AbstractOperator
  streams : List AbstractStream
deriving DecidableEq, Repr

/-- Modelled from the spec: `JobGraph::get_job` looks the operator up by its
id; the `Driver` job has no operator entry. -/
def JobGraph.get_job (jg : JobGraph) (j : Job) : Option AbstractOperator :=
  match j with
  | .operator oid => jg.operators.find? (fun op => op.id == oid)
  | .driver => none

/-- Modelled from the spec: `JobGraph::get_stream` looks a stream up by id. -/
def JobGraph.get_stream (jg : JobGraph) (sid : StreamId) : Option AbstractStream :=
  jg.streams.find? (fun s => s.id == sid)

/-! ## Control-plane and data-plane notification vocabulary

These mirror the variants consumed and produced by `worker_node.rs`
(the enum definitions themselves are in a part of the control-plane module
that is missing from the snapshot; the variants and their payloads are taken
from the match arms and construction sites in `worker_node.rs`). -/

/-- Messages from the Leader to a Worker. -/
inductive LeaderNotification : Type
  | scheduleJob (graph_id : JobGraphId) (job : Job)
      (worker_addresses : List (Job × Addr))
  | executeGraph (graph_id : JobGraphId)
  | shutdown
deriving DecidableEq, Repr

/-- Messages from the Driver to its Worker. -/
inductive DriverNotification : Type
  | registerGraph (job_graph : JobGraph)
  | submitGraph (graph_id : JobGraphId)
  | shutdown
deriving DecidableEq, Repr

/-- Data-plane notifications consumed by the Worker supervisor
(`handle_data_plane_messages` only matches `StreamReady`). -/
inductive DataPlaneNotification : Type
  | streamReady (job : Job) (stream_id : StreamId)
deriving DecidableEq, Repr

/-- Messages from a Worker to the Leader. -/
inductive WorkerNotification : Type
  | initialized (worker_id : WorkerId)
  | submitGraph (graph_id : JobGraphId) (graph : JobGraph)
  | jobReady (graph_id : JobGraphId) (job : Job)
  | shutdown
deriving DecidableEq, Repr

/-- `JobState` from `worker_node.rs`. -/
inductive JobState : Type
  | scheduled
  | ready
  | executing
  | shutdown
deriving DecidableEq, Repr

/-- Position of a recorded `JobState` along `Scheduled → Ready → Executing →
Shutdown`; `0` stands for "no state recorded yet". -/
def JobState.rank : Option JobState → Nat
  | none => 0
  | some .scheduled => 1
  | some .ready => 2
  | some .executing => 3
  | some .shutdown => 4

/-! ## WorkerNode state machine (`worker_node.rs`) -/

/-- The mutable fields of `WorkerNode` that the message handlers touch. -/
structure WState : Type where
  job_graphs : List (JobGraphId × JobGraph)
  pending_stream_setups : List (Job × (JobGraphId × List StreamId))
  job_graph_to_job_state : List (JobGraphId × List (Job × JobState))
deriving DecidableEq, Repr

/-- The state of a freshly constructed `WorkerNode` (`WorkerNode::new`). -/
def initWState : WState :=
  { job_graphs := [], pending_stream_setups := [], job_graph_to_job_state := [] }

/-- The read-stream half of the stream-construction loop of the
`ScheduleJob` arm: fetch each stream (`get_stream(..).unwrap()`) and its
source's address (`expect`); `none` models the panics. -/
def fetchReadIds (jg : JobGraph) (addrs : List (Job × Addr)) :
    List StreamId → Option (List StreamId)
  | [] => some []
  | rid :: rest =>
    match jg.get_stream rid with
    | none => none
    | some s =>
      match lookupA addrs s.source with
      | none => none
      | some _ =>
        match fetchReadIds jg addrs rest with
        | some ids => some (s.id :: ids)
        | none => none

/-- The write-stream half of the loop: fetch each stream and the address of
every destination. -/
def fetchWriteIds (jg : JobGraph) (addrs : List (Job × Addr)) :
    List StreamId → Option (List StreamId)
  | [] => some []
  | wid :: rest =>
    match jg.get_stream wid with
    | none => none
    | some s =>
      if s.destinations.all (fun d => (lookupA addrs d).isSome) then
        match fetchWriteIds jg addrs rest with
        | some ids => some (s.id :: ids)
        | none => none
      else none

/-- The stream-representation construction loop of the `ScheduleJob` arm of
`handle_leader_messages`; `none` models the panics of the `unwrap`/`expect`
calls, and on success the result is the ids of the constructed `StreamType`
list in construction order. -/
def buildStreams (jg : JobGraph) (op : AbstractOperator)
    (addrs : List (Job × Addr)) : Option (List StreamId) :=
  match fetchReadIds jg addrs op.read_streams with
  | none => none
  | some readIds =>
    match fetchWriteIds jg addrs op.write_streams with
    | none => none
    | some writeIds => some (readIds ++ writeIds)

/-- The `ScheduleJob` arm of `handle_leader_messages`.  `none` models a panic
inside the stream-construction loop.  On success the pending-stream memo is
seeded with the (de-duplicated, `HashSet`-collected) stream ids and the job is
recorded as `Scheduled`; the `SetupStreams` message to the data plane carries
no supervisor state and is not tracked. -/
def handleScheduleJob (st : WState) (gid : JobGraphId) (job : Job)
    (addrs : List (Job × Addr)) : Option (WState × List WorkerNotification) :=
  match lookupA st.job_graphs gid with
  | none => some (st, [])
  | some jg =>
    match jg.get_job job with
    | none => some (st, [])
    | some op =>
      match buildStreams jg op addrs with
      | none => none
      | some ids =>
        let pending := ids.dedup
        let jmap := (lookupA st.job_graph_to_job_state gid).getD []
        some ({ st with
                pending_stream_setups :=
                  insertA st.pending_stream_setups job (gid, pending),
                job_graph_to_job_state :=
                  insertA st.job_graph_to_job_state gid
                    (insertA jmap job .scheduled) }, [])

/-- The `ExecuteGraph` arm of `handle_leader_messages`.  The code unwraps the
job-state map for the graph and, per recorded job, the registered graph and
operator; `none` models those panics.  Spawning the operator executors does
not change the supervisor's state. -/
def handleExecuteGraph (st : WState) (gid : JobGraphId) :
    Option (WState × List WorkerNotification) :=
  match lookupA st.job_graph_to_job_state gid with
  | none => none
  | some jmap =>
    if jmap.all (fun p =>
        match lookupA st.job_graphs gid with
        | none => false
        | some jg => (jg.get_job p.1).isSome)
    then some (st, [])
    else none

/-- The job-state update performed when a job's pending set empties: move the
recorded state to `Ready` when both the graph's state map and the job's entry
exist (the source logs a warning and changes nothing otherwise). -/
def readyUpdate (st : WState) (gid : JobGraphId) (job : Job) :
    List (JobGraphId × List (Job × JobState)) :=
  match lookupA st.job_graph_to_job_state gid with
  | some jmap =>
    match lookupA jmap job with
    | some _ => insertA st.job_graph_to_job_state gid (insertA jmap job .ready)
    | none => st.job_graph_to_job_state
  | none => st.job_graph_to_job_state

/-- The `StreamReady` arm of `handle_data_plane_messages`: remove the stream
from the job's pending set; if the set became empty, send `JobReady`, move the
recorded job state to `Ready` (when present), and drop the pending entry. -/
def handleStreamReady (st : WState) (job : Job) (stream_id : StreamId) :
    WState × List WorkerNotification :=
  match lookupA st.pending_stream_setups job with
  | some (gid, pending) =>
    if stream_id ∈ pending then
      let pending' := pending.erase stream_id
      if pending'.isEmpty then
        ({ st with
           job_graph_to_job_state := readyUpdate st gid job,
           pending_stream_setups := eraseA st.pending_stream_setups job },
         [WorkerNotification.jobReady gid job])
      else
        ({ st with
           pending_stream_setups :=
             insertA st.pending_stream_setups job (gid, pending') }, [])
    else (st, [])
  | none => (st, [])

/-- `handle_driver_messages` (the `Shutdown` arm is handled by the main loop
and modelled in `workerStep`). -/
def handleDriverMessage (st : WState) (m : DriverNotification) :
    WState × List WorkerNotification :=
  match m with
  | .registerGraph jg =>
    ({ st with job_graphs := insertA st.job_graphs jg.id jg }, [])
  | .submitGraph gid =>
    match lookupA st.job_graphs gid with
    | some jg => (st, [WorkerNotification.submitGraph gid jg])
    | none => (st, [])
  | .shutdown => (st, [])

/-- One message drawn from the three `select!` sources of `WorkerNode::run`. -/
inductive WMsg : Type
  | leader (m : LeaderNotification)
  | driver (m : DriverNotification)
  | dataPlane (m : DataPlaneNotification)
deriving DecidableEq, Repr

/-- Result of the supervisor processing one message: continue with a new
state after emitting messages to the Leader, stop cleanly (a `Shutdown`,
possibly after emitting `Shutdown` to the Leader), or die on a panic. -/
inductive StepRes : Type
  | cont (st : WState) (out : List WorkerNotification)
  | halt (out : List WorkerNotification)
  | panic
deriving DecidableEq, Repr

/-- One iteration of the `select!` loop of `WorkerNode::run`. -/
def workerStep (st : WState) (m : WMsg) : StepRes :=
  match m with
  | .leader .shutdown => .halt []
  | .leader (.scheduleJob g j a) =>
    match handleScheduleJob st g j a with
    | some (st', out) => .cont st' out
    | none => .panic
  | .leader (.executeGraph g) =>
    match handleExecuteGraph st g with
    | some (st', out) => .cont st' out
    | none => .panic
  | .driver .shutdown => .halt [WorkerNotification.shutdown]
  | .driver m' => let r := handleDriverMessage st m'; .cont r.1 r.2
  | .dataPlane (.streamReady j s) => let r := handleStreamReady st j s; .cont r.1 r.2

/-- The messages a step emits to the Leader. -/
def stepOut (r : StepRes) : List WorkerNotification :=
  match r with
  | .cont _ out => out
  | .halt out => out
  | .panic => []

/-- Result of running the supervisor over a message sequence. -/
structure RunResult : Type where
  state : WState
  out : List WorkerNotification
  completed : Bool
deriving DecidableEq, Repr

/-- Run the supervisor loop over a finite message sequence; processing stops
at a shutdown or panic (messages after it are not consumed). -/
def workerRun (st : WState) : List WMsg → RunResult
  | [] => { state := st, out := [], completed := true }
  | m :: ms =>
    match workerStep st m with
    | .cont st' out =>
      let r := workerRun st' ms
      { state := r.state, out := out ++ r.out, completed := r.completed }
    | .halt out => { state := st, out := out, completed := false }
    | .panic => { state := st, out := [], completed := false }

/-- Does this message schedule job `j` of graph `g`? -/
def isScheduleJobFor (g : JobGraphId) (j : Job) : WMsg → Bool
  | .leader (.scheduleJob g' j' _) => g' == g && j' == j
  | _ => false

/-- Does this message schedule job `j` (of any graph)? -/
def isScheduleJobForJob (j : Job) : WMsg → Bool
  | .leader (.scheduleJob _ j' _) => j' == j
  | _ => false

/-- Occurrences of `JobReady(g, j)` in a list of Worker-to-Leader messages. -/
def countJobReady (g : JobGraphId) (j : Job) (outs : List WorkerNotification) : Nat :=
  outs.countP (fun n => n == WorkerNotification.jobReady g j)

/-- `1` when the pending-stream memo has an entry binding job `j` to graph
`g`, else `0` (the potential used by the counting invariant). -/
def pendN (st : WState) (g : JobGraphId) (j : Job) : Nat :=
  match lookupA st.pending_stream_setups j with
  | some (g', _) => if g' = g then 1 else 0
  | none => 0

/-- The state recorded for `(g, j)` in the Worker's job-state table. -/
def jobStateOf (st : WState) (g : JobGraphId) (j : Job) : Option JobState :=
  match lookupA st.job_graph_to_job_state g with
  | some jmap => lookupA jmap j
  | none => none

/-- The ranks of the recorded state of `(g, j)` at every prefix of a run
(frozen at the point the run stops). -/
def ranksAlong (g : JobGraphId) (j : Job) (st : WState) : List WMsg → List Nat
  | [] => [JobState.rank (jobStateOf st g j)]
  | m :: ms =>
    JobState.rank (jobStateOf st g j) ::
      (match workerStep st m with
       | .cont st' _ => ranksAlong g j st' ms
       | _ => [JobState.rank (jobStateOf st g j)])

/-! ## Stream manager (`communication/data_plane/stream_manager.rs`)

In-process channel endpoints are identified by the value of a freshness
counter: each `mpsc::unbounded_channel()` call yields a new channel whose two
halves are modelled by the same number. -/

/-- Modelled from the spec: `Pusher<D>` (its definition is missing from the
snapshot).  Per §3 it is a table `Job → in-process SendEndpoint` plus the
stream id, and `add_endpoint(dest_job, endpoint)` inserts keyed by the job
(idempotent on the key, §4.2). -/
structure PusherModel : Type where
  stream_id : StreamId
  endpoints : List (Job × Nat)
deriving DecidableEq, Repr

/-- `Pusher::add_endpoint`. -/
def PusherModel.add_endpoint (p : PusherModel) (job : Job) (chan : Nat) : PusherModel :=
  { p with endpoints := insertA p.endpoints job chan }

/-- `StreamEndpoints<D>` from `stream_manager.rs`: per-stream maps of receive
and send endpoints keyed by `Job`. -/
structure StreamEndpointsModel : Type where
  stream_id : StreamId
  recv_endpoints : List (Job × Nat)
  send_endpoints : List (Job × Nat)
deriving DecidableEq, Repr

/-- `StreamEndpoints::new`. -/
def StreamEndpointsModel.new (sid : StreamId) : StreamEndpointsModel :=
  { stream_id := sid, recv_endpoints := [], send_endpoints := [] }

/-- Data-plane side effects of the stream-manager registration calls:
`WorkerConnection::install_pusher` and `WorkerConnection::notify_pusher_update`
(their bodies are in the missing `worker_connection.rs`; only the fact and
order of the calls matter here).  `notify_pusher_update` is called with
`(stream.get_source(), stream.id(), receiving_job)` in the source. -/
inductive SMNotif : Type
  | installPusher (stream_id : StreamId)
  | notifyPusherUpdate (source : Job) (stream_id : StreamId) (receiving_job : Job)
deriving DecidableEq, Repr

/-- The fields of `StreamManager` the registration and take operations touch,
plus the freshness counter for channel allocation. -/
structure SMState : Type where
  stream_entries : List (StreamId × StreamEndpointsModel)
  stream_pushers : List (StreamId × PusherModel)
  fresh : Nat
deriving DecidableEq, Repr

/-- An empty `StreamManager` (`StreamManager::new`). -/
def initSMState : SMState := { stream_entries := [], stream_pushers := [], fresh := 0 }

/-- `StreamManager::add_inter_worker_recv_endpoint`, followed into
`StreamEndpoints::add_inter_worker_recv_endpoint`.  If the stream has no
entry yet, endpoints and a pusher are created and the pusher installed on the
peer connection.  Then a fresh in-process channel is allocated and — exactly
as the source does — BOTH the pusher's new send endpoint and the entry's new
recv endpoint are keyed by `stream.get_source()` (the `receiving_job`
argument is used only in the `notify_pusher_update` call). -/
def SMState.add_inter_worker_recv_endpoint (st : SMState) (stream : AbstractStream)
    (receiving_job : Job) : SMState × List SMNotif :=
  let createNew := (lookupA st.stream_entries stream.id).isNone
  let entries0 :=
    if createNew then
      insertA st.stream_entries stream.id (StreamEndpointsModel.new stream.id)
    else st.stream_entries
  let pushers0 :=
    if createNew then
      insertA st.stream_pushers stream.id
        { stream_id := stream.id, endpoints := [] }
    else st.stream_pushers
  let installs := if createNew then [SMNotif.installPusher stream.id] else []
  match lookupA entries0 stream.id, lookupA pushers0 stream.id with
  | some entry, some pusher =>
    let chan := st.fresh
    let pusher' := pusher.add_endpoint stream.source chan
    let entry' :=
      { entry with recv_endpoints := insertA entry.recv_endpoints stream.source chan }
    ({ stream_entries := insertA entries0 stream.id entry',
       stream_pushers := insertA pushers0 stream.id pusher',
       fresh := st.fresh + 1 },
     installs ++ [SMNotif.notifyPusherUpdate stream.source stream.id receiving_job])
  | _, _ =>
    ({ st with stream_entries := entries0, stream_pushers := pushers0 }, installs)

/-- `StreamEndpoints::add_inter_thread_channel`: allocate a fresh in-process
pair and store both halves under the consumer job. -/
def SMState.add_inter_thread_channel (st : SMState) (sid : StreamId) (job : Job) :
    SMState :=
  match lookupA st.stream_entries sid with
  | some entry =>
    let chan := st.fresh
    let entry' :=
      { entry with
        recv_endpoints := insertA entry.recv_endpoints job chan,
        send_endpoints := insertA entry.send_endpoints job chan }
    { st with stream_entries := insertA st.stream_entries sid entry',
              fresh := st.fresh + 1 }
  | none => st

/-- `StreamEndpoints::take_recv_endpoint`: remove and return the endpoint
stored under the first key (`keys().next()`; the source iterates a `HashMap`
in unspecified order, modelled as list order). -/
def StreamEndpointsModel.take_recv_endpoint (e : StreamEndpointsModel) :
    Option (Nat × StreamEndpointsModel) :=
  match e.recv_endpoints with
  | [] => none
  | (_, chan) :: rest => some (chan, { e with recv_endpoints := rest })

/-- `StreamManager::take_recv_endpoint` (the `downcast_mut` always succeeds
for the stream's own payload type and is not modelled): error when the stream
id has no entry or the entry has no receive endpoints left. -/
def SMState.take_recv_endpoint (st : SMState) (sid : StreamId) :
    Except String (Nat × SMState) :=
  match lookupA st.stream_entries sid with
  | none => .error "no recv endpoints found"
  | some e =>
    match e.take_recv_endpoint with
    | none => .error "could not get recv endpoint"
    | some (chan, e') =>
      .ok (chan, { st with stream_entries := insertA st.stream_entries sid e' })

/-- `StreamManager::take_read_stream`: wraps the taken receive endpoint into a
`ReadStream` (modelled as the pair of stream id and endpoint). -/
def SMState.take_read_stream (st : SMState) (sid : StreamId) :
    Except String ((StreamId × Nat) × SMState) :=
  match st.take_recv_endpoint sid with
  | .ok (chan, st') => .ok ((sid, chan), st')
  | .error msg => .error msg

/-- The receive-endpoint channels currently stored for a stream id. -/
def recvValues (st : SMState) (sid : StreamId) : List Nat :=
  match lookupA st.stream_entries sid with
  | some e => e.recv_endpoints.map Prod.snd
  | none => []

/-- Repeatedly call `take_recv_endpoint`, collecting the successes (stopping
at the first error). -/
def takeSeq (st : SMState) (sid : StreamId) : Nat → List Nat × SMState
  | 0 => ([], st)
  | n + 1 =>
    match st.take_recv_endpoint sid with
    | .ok (chan, st') =>
      let r := takeSeq st' sid n
      (chan :: r.1, r.2)
    | .error _ => ([], st)

/-! ## DataReceiver (`communication/receivers.rs`) -/

/-- The receiver-side view of an installed pusher: its identity plus whether
`send_from_bytes` fails on a given frame body (deserialization / endpoint
errors are opaque to the receiver loop). -/
structure PusherObj : Type where
  pid : Nat
  fails : Bool
deriving DecidableEq, Repr

/-- `InterProcessMessage`: the serialized on-wire variant and the in-process
deserialized variant (which `DataReceiver::run` treats as unreachable). -/
inductive IPMsg : Type
  | serialized (stream_id : StreamId) (bytes : List Nat)
  | deserialized
deriving DecidableEq, Repr

/-- One iteration's worth of input for `DataReceiver::run`: the pusher
updates pending on the update channel at the moment the frame arrives, and
the framed-read result. -/
inductive TcpEvent : Type
  | frame (updates : List (StreamId × PusherObj)) (msg : IPMsg)
  | tcpError
deriving DecidableEq, Repr

/-- How `DataReceiver::run` ended. -/
inductive RecvResult : Type
  | ok
  | commErr
  | panicMissingPusher (stream_id : StreamId)
  | panicDeserialized
deriving DecidableEq, Repr

/-- `DataReceiver::update_pushers`: drain the pending updates and install
them into the local pusher snapshot. -/
def applyUpdates (m : List (StreamId × PusherObj)) :
    List (StreamId × PusherObj) → List (StreamId × PusherObj)
  | [] => m
  | (sid, p) :: rest => applyUpdates (insertA m sid p) rest

/-- Outcome of `DataReceiver::run`: the final pusher snapshot, the log of
`send_from_bytes` dispatches `(stream_id, pusher id, body)`, and how the loop
ended. -/
structure RecvRun : Type where
  pushers : List (StreamId × PusherObj)
  log : List (StreamId × Nat × List Nat)
  result : RecvResult
deriving DecidableEq, Repr

/-- `DataReceiver::run`: for each inbound frame, first drain pending pusher
updates, then look the frame's `metadata.stream_id` up in the local snapshot;
a missing pusher is a panic, a found pusher gets `send_from_bytes(body)`. -/
def receiverRun (ps : List (StreamId × PusherObj)) : List TcpEvent → RecvRun
  | [] => { pushers := ps, log := [], result := .ok }
  | e :: es =>
    match e with
    | .tcpError => { pushers := ps, log := [], result := .commErr }
    | .frame ups msg =>
      let ps' := applyUpdates ps ups
      match msg with
      | .deserialized => { pushers := ps', log := [], result := .panicDeserialized }
      | .serialized sid bytes =>
        match lookupA ps' sid with
        | some p =>
          if p.fails then
            { pushers := ps', log := [(sid, p.pid, bytes)], result := .commErr }
          else
            let r := receiverRun ps' es
            { pushers := r.pushers, log := (sid, p.pid, bytes) :: r.log,
              result := r.result }
        | none =>
          { pushers := ps', log := [], result := .panicMissingPusher sid }

/-- The latest pending update for a stream id, if any (updates are applied in
arrival order, so the last one wins). -/
def lastUpdateFor (ups : List (StreamId × PusherObj)) (sid : StreamId) :
    Option PusherObj :=
  lookupA ups.reverse sid

/-! ## DataSender (`communication/data_plane/data_sender.rs`) -/

/-- `CommunicationError` (its enum is in the missing `errors.rs`; the
variants used by `DataSender::run` are `Disconnected` — built when the
in-process queue closes — and whatever `CommunicationError::from` maps a
failed channel/TCP write to, modelled opaquely). -/
inductive CommErr : Type
  | disconnected
  | sendError (code : Nat)
deriving DecidableEq, Repr

/-- `DataSender::run` over the finite life of its in-process queue: `queue`
lists each drained message together with the result of the framed TCP write
for it (`none` = success), and `closed` says whether the queue's senders were
dropped after those messages (`recv()` returning `None`).  Returns the frames
written to the TCP stream in order and how (whether) the task terminated;
the initial `SenderInitialized` notification carries no supervisor-visible
state and is modelled by `initOk` (its failure aborts before any write). -/
def senderRun : Bool → List (Nat × Option CommErr) → Bool → List Nat × Option CommErr
  | false, _, _ => ([], some (.sendError 0))
  | true, [], closed => if closed then ([], some .disconnected) else ([], none)
  | true, (m, werr) :: rest, closed =>
    match werr with
    | some e => ([], some e)
    | none =>
      let r := senderRun true rest closed
      (m :: r.1, r.2)

/-! ## WorkerHandle (`node/handles.rs`) -/

/-- The user-facing `Graph` (opaque to `register`/`submit`, which only pass
it to `Graph::compile`). -/
structure DriverGraph : Type where
  raw : Nat
deriving DecidableEq, Repr

/-- `GraphCompilationError` (opaque). -/
structure GraphCompilationError : Type where
  code : Nat
deriving DecidableEq, Repr

/-- `HandleError` from `handles.rs` (the communication variant's message
string is elided). -/
inductive HandleError : Type
  | graphCompilationError (e : GraphCompilationError)
  | communicationError
deriving DecidableEq, Repr

/-- `WorkerHandle::register`: compile the graph, then `blocking_send` a
`RegisterGraph` notification to the Worker.  `compile` stands for
`Graph::compile` (the compiler lives in the missing `graph.rs`); `sendOk`
is whether the channel send succeeds.  Returns the result together with the
driver notifications actually delivered to the Worker. -/
def WorkerHandle.register (compile : DriverGraph → Except GraphCompilationError JobGraph)
    (sendOk : Bool) (g : DriverGraph) :
    Except HandleError JobGraphId × List DriverNotification :=
  match compile g with
  | .error e => (.error (.graphCompilationError e), [])
  | .ok jg =>
    if sendOk then (.ok jg.id, [DriverNotification.registerGraph jg])
    else (.error .communicationError, [])

/-- `WorkerHandle::submit`: call `register`, and on success `blocking_send`
a `SubmitGraph` notification for the returned id. -/
def WorkerHandle.submit (compile : DriverGraph → Except GraphCompilationError JobGraph)
    (regSendOk subSendOk : Bool) (g : DriverGraph) :
    Except HandleError JobGraphId × List DriverNotification :=
  match WorkerHandle.register compile regSendOk g with
  | (.error e, sent) => (.error e, sent)
  | (.ok gid, sent) =>
    if subSendOk then (.ok gid, sent ++ [DriverNotification.submitGraph gid])
    else (.error .communicationError, sent)

/-! ## Control-plane framing codec

Modelled from the spec: the `ControlPlaneCodec` implementation
(`control_plane/codecs.rs`) is missing from the snapshot.  Per §4.1 a frame
is a 4-byte big-endian length (at most 64 MiB) followed by a serialization of
a tagged variant from the control vocabulary of §6; the concrete
serialization library is explicitly out of scope, only the framing and the
round-trip contract are specified.  The model serializes the §6 vocabulary
with fixed-width little-endian fields (ids are 128-bit per §3, list lengths
64-bit, one tag byte per variant); strings are carried as their byte
sequences. -/

namespace CP

/-- `k` bytes, little-endian, of a natural (the low `8 * k` bits). -/
def natToBytesLE : Nat → Nat → List Nat
  | 0, _ => []
  | k + 1, n => n % 256 :: natToBytesLE k (n / 256)

/-- Read `k` little-endian bytes into a natural, returning the rest. -/
def readNatLE : Nat → List Nat → Option (Nat × List Nat)
  | 0, l => some (0, l)
  | _ + 1, [] => none
  | k + 1, b :: bs =>
    match readNatLE k bs with
    | some (n, rest) => some (b + 256 * n, rest)
    | none => none

/-- Copy `k` raw bytes off the front of the stream. -/
def readBytes : Nat → List Nat → Option (List Nat × List Nat)
  | 0, l => some ([], l)
  | _ + 1, [] => none
  | k + 1, b :: bs =>
    match readBytes k bs with
    | some (xs, rest) => some (b :: xs, rest)
    | none => none

/-- A length-prefixed byte string (64-bit length). -/
def encBytes (l : List Nat) : List Nat := natToBytesLE 8 l.length ++ l

def decBytes (l : List Nat) : Option (List Nat × List Nat) :=
  match readNatLE 8 l with
  | some (n, rest) => readBytes n rest
  | none => none

/-- A length-prefixed list (64-bit length, elements encoded by `enc`). -/
def encList (enc : α → List Nat) (l : List α) : List Nat :=
  natToBytesLE 8 l.length ++ (l.map enc).flatten

/-- Decode `k` consecutive elements with `dec`. -/
def readListE (dec : List Nat → Option (α × List Nat)) :
    Nat → List Nat → Option (List α × List Nat)
  | 0, l => some ([], l)
  | k + 1, l =>
    match dec l with
    | some (a, l') =>
      match readListE dec k l' with
      | some (as, rest) => some (a :: as, rest)
      | none => none
    | none => none

def decList (dec : List Nat → Option (α × List Nat)) (l : List Nat) :
    Option (List α × List Nat) :=
  match readNatLE 8 l with
  | some (n, rest) => readListE dec n rest
  | none => none

/-- A 128-bit identifier field (spec §3: ids are 128-bit opaque values). -/
def encId (n : Nat) : List Nat := natToBytesLE 16 n

def decId (l : List Nat) : Option (Nat × List Nat) := readNatLE 16 l

/-- Wire form of `Job`: tag byte then the operator id if any. -/
def encJob : Job → List Nat
  | .operator oid => 0 :: encId oid
  | .driver => [1]

def decJob (l : List Nat) : Option (Job × List Nat) :=
  match l with
  | 0 :: rest =>
    match decId rest with
    | some (oid, rest') => some (.operator oid, rest')
    | none => none
  | 1 :: rest => some (.driver, rest)
  | _ => none

/-- A socket address: 4-byte IPv4 host, 2-byte port. -/
structure WAddr : Type where
  host : Nat
  port : Nat
deriving DecidableEq, Repr

def encAddr (a : WAddr) : List Nat := natToBytesLE 4 a.host ++ natToBytesLE 2 a.port

def decAddr (l : List Nat) : Option (WAddr × List Nat) :=
  match readNatLE 4 l with
  | some (h, rest) =>
    match readNatLE 2 rest with
    | some (p, rest') => some ({ host := h, port := p }, rest')
    | none => none
  | none => none

/-- `WorkerState` (spec §3: `{ id, data-plane address, resources }`;
`Resources` is summarized as an abstract 64-bit quantity). -/
structure WWorkerState : Type where
  id : Nat
  address : WAddr
  resources : Nat
deriving DecidableEq, Repr

def encWorkerState (w : WWorkerState) : List Nat :=
  encId w.id ++ encAddr w.address ++ natToBytesLE 8 w.resources

def decWorkerState (l : List Nat) : Option (WWorkerState × List Nat) :=
  match decId l with
  | some (i, r1) =>
    match decAddr r1 with
    | some (a, r2) =>
      match readNatLE 8 r2 with
      | some (res, r3) => some ({ id := i, address := a, resources := res }, r3)
      | none => none
    | none => none
  | none => none

/-- Wire form of an abstract operator: id, name bytes, read and write stream
ids (the operator-variant tag is one byte; the spec's config is carried in
the name bytes). -/
structure WOperator : Type where
  id : Nat
  name : List Nat
  read_streams : List Nat
  write_streams : List Nat
  op_type : Nat
deriving DecidableEq, Repr

def encOperator (o : WOperator) : List Nat :=
  encId o.id ++ encBytes o.name ++ encList encId o.read_streams ++
    encList encId o.write_streams ++ [o.op_type % 256]

def decOperator (l : List Nat) : Option (WOperator × List Nat) :=
  match decId l with
  | some (i, r1) =>
    match decBytes r1 with
    | some (nm, r2) =>
      match decList decId r2 with
      | some (rs, r3) =>
        match decList decId r3 with
        | some (ws, r4) =>
          match r4 with
          | t :: r5 =>
            some ({ id := i, name := nm, read_streams := rs, write_streams := ws,
                    op_type := t }, r5)
          | [] => none
        | none => none
      | none => none
    | none => none
  | none => none

/-- Wire form of an abstract stream: id, name bytes, source job, destination
jobs. -/
structure WStream : Type where
  id : Nat
  name : List Nat
  source : Job
  destinations : List Job
deriving DecidableEq, Repr

def encStream (s : WStream) : List Nat :=
  encId s.id ++ encBytes s.name ++ encJob s.source ++ encList encJob s.destinations

def decStream (l : List Nat) : Option (WStream × List Nat) :=
  match decId l with
  | some (i, r1) =>
    match decBytes r1 with
    | some (nm, r2) =>
      match decJob r2 with
      | some (src, r3) =>
        match decList decJob r3 with
        | some (ds, r4) =>
          some ({ id := i, name := nm, source := src, destinations := ds }, r4)
        | none => none
      | none => none
    | none => none
  | none => none

/-- The abstract job graph shipped in `SubmitGraph` (spec §4.7: the submitted
structure, without runner closures). -/
structure WJobGraph : Type where
  id : Nat
  name : List Nat
  operators : List WOperator
  streams : List WStream
deriving DecidableEq, Repr

def encJobGraph (g : WJobGraph) : List Nat :=
  encId g.id ++ encBytes g.name ++ encList encOperator g.operators ++
    encList encStream g.streams

def decJobGraph (l : List Nat) : Option (WJobGraph × List Nat) :=
  match decId l with
  | some (i, r1) =>
    match decBytes r1 with
    | some (nm, r2) =>
      match decList decOperator r2 with
      | some (ops, r3) =>
        match decList decStream r3 with
        | some (strs, r4) =>
          some ({ id := i, name := nm, operators := ops, streams := strs }, r4)
        | none => none
      | none => none
    | none => none
  | none => none

def encPairJA (p : Job × WAddr) : List Nat := encJob p.1 ++ encAddr p.2

def decPairJA (l : List Nat) : Option ((Job × WAddr) × List Nat) :=
  match decJob l with
  | some (j, r1) =>
    match decAddr r1 with
    | some (a, r2) => some ((j, a), r2)
    | none => none
  | none => none

/-- The Worker → Leader control vocabulary (spec §6). -/
inductive WorkerMsg : Type
  | initialized (state : WWorkerState)
  | submitGraph (graph_id : Nat) (abstract_graph : WJobGraph)
  | jobReady (graph_id : Nat) (job : Job)
  | shutdown
deriving DecidableEq, Repr

/-- The Leader → Worker control vocabulary (spec §6). -/
inductive LeaderMsg : Type
  | scheduleJob (graph_id : Nat) (job : Job)
      (worker_addresses : List (Job × WAddr))
  | executeGraph (graph_id : Nat)
  | shutdown
deriving DecidableEq, Repr

/-- Serialization of a Worker → Leader message (the frame payload). -/
def encWorkerMsg : WorkerMsg → List Nat
  | .initialized w => 0 :: encWorkerState w
  | .submitGraph gid g => 1 :: (encId gid ++ encJobGraph g)
  | .jobReady gid j => 2 :: (encId gid ++ encJob j)
  | .shutdown => [3]

def decWorkerMsg (l : List Nat) : Option (WorkerMsg × List Nat) :=
  match l with
  | 0 :: rest =>
    match decWorkerState rest with
    | some (w, r) => some (.initialized w, r)
    | none => none
  | 1 :: rest =>
    match decId rest with
    | some (gid, r1) =>
      match decJobGraph r1 with
      | some (g, r2) => some (.submitGraph gid g, r2)
      | none => none
    | none => none
  | 2 :: rest =>
    match decId rest with
    | some (gid, r1) =>
      match decJob r1 with
      | some (j, r2) => some (.jobReady gid j, r2)
      | none => none
    | none => none
  | 3 :: rest => some (.shutdown, rest)
  | _ => none

/-- Serialization of a Leader → Worker message (the frame payload). -/
def encLeaderMsg : LeaderMsg → List Nat
  | .scheduleJob gid j addrs => 0 :: (encId gid ++ encJob j ++ encList encPairJA addrs)
  | .executeGraph gid => 1 :: encId gid
  | .shutdown => [2]

def decLeaderMsg (l : List Nat) : Option (LeaderMsg × List Nat) :=
  match l with
  | 0 :: rest =>
    match decId rest with
    | some (gid, r1) =>
      match decJob r1 with
      | some (j, r2) =>
        match decList decPairJA r2 with
        | some (addrs, r3) => some (.scheduleJob gid j addrs, r3)
        | none => none
      | none => none
    | none => none
  | 1 :: rest =>
    match decId rest with
    | some (gid, r) => some (.executeGraph gid, r)
    | none => none
  | 2 :: rest => some (.shutdown, rest)
  | _ => none

/-- The maximum frame length (64 MiB, spec §4.1). -/
def maxFrameLen : Nat := 67108864

/-- The length-prefix framing: a 4-byte big-endian length, then the payload. -/
def encodeFrame (payload : List Nat) : List Nat :=
  (natToBytesLE 4 payload.length).reverse ++ payload

/-- Read one frame: the 4-byte big-endian length must be at most 64 MiB and
the payload must be fully present. -/
def decodeFrame (l : List Nat) : Option (List Nat × List Nat) :=
  match readBytes 4 l with
  | some (lenBytes, rest) =>
    match readNatLE 4 lenBytes.reverse with
    | some (n, _) =>
      if n ≤ maxFrameLen then readBytes n rest else none
    | none => none
  | none => none

/-- Encode one framed Worker → Leader control message. -/
def encodeWorkerFrame (m : WorkerMsg) : List Nat := encodeFrame (encWorkerMsg m)

/-- Decode one framed Worker → Leader control message (the frame must carry
exactly one message and be the whole input). -/
def decodeWorkerFrame (l : List Nat) : Option WorkerMsg :=
  match decodeFrame l with
  | some (payload, rest) =>
    match decWorkerMsg payload with
    | some (m, leftover) =>
      if leftover = [] ∧ rest = [] then some m else none
    | none => none
  | none => none

def encodeLeaderFrame (m : LeaderMsg) : List Nat := encodeFrame (encLeaderMsg m)

def decodeLeaderFrame (l : List Nat) : Option LeaderMsg :=
  match decodeFrame l with
  | some (payload, rest) =>
    match decLeaderMsg payload with
    | some (m, leftover) =>
      if leftover = [] ∧ rest = [] then some m else none
    | none => none
  | none => none

/-! Wellformedness of wire messages: every fixed-width field fits its width
(ids are 128-bit values, addresses an IPv4/port pair, lengths `usize`), and
the framed payload respects the 64 MiB bound.  These are the type invariants
of the Rust-side values (`u128`/`Uuid`, `SocketAddrV4`, `usize`, `u8`). -/

def wfAddr (a : WAddr) : Prop := a.host < 256 ^ 4 ∧ a.port < 256 ^ 2

def wfJob : Job → Prop
  | .operator oid => oid < 256 ^ 16
  | .driver => True

def wfWorkerState (w : WWorkerState) : Prop :=
  w.id < 256 ^ 16 ∧ wfAddr w.address ∧ w.resources < 256 ^ 8

def wfOperator (o : WOperator) : Prop :=
  o.id < 256 ^ 16 ∧ o.name.length < 256 ^ 8 ∧
    o.read_streams.length < 256 ^ 8 ∧ (∀ s ∈ o.read_streams, s < 256 ^ 16) ∧
    o.write_streams.length < 256 ^ 8 ∧ (∀ s ∈ o.write_streams, s < 256 ^ 16) ∧
    o.op_type < 256

def wfStream (s : WStream) : Prop :=
  s.id < 256 ^ 16 ∧ s.name.length < 256 ^ 8 ∧ wfJob s.source ∧
    s.destinations.length < 256 ^ 8 ∧ ∀ j ∈ s.destinations, wfJob j

def wfJobGraph (g : WJobGraph) : Prop :=
  g.id < 256 ^ 16 ∧ g.name.length < 256 ^ 8 ∧
    g.operators.length < 256 ^ 8 ∧ (∀ o ∈ g.operators, wfOperator o) ∧
    g.streams.length < 256 ^ 8 ∧ ∀ s ∈ g.streams, wfStream s

def wfWorkerMsg : WorkerMsg → Prop
  | .initialized w => wfWorkerState w
  | .submitGraph gid g => gid < 256 ^ 16 ∧ wfJobGraph g
  | .jobReady gid j => gid < 256 ^ 16 ∧ wfJob j
  | .shutdown => True

def wfLeaderMsg : LeaderMsg → Prop
  | .scheduleJob gid j addrs =>
    gid < 256 ^ 16 ∧ wfJob j ∧ addrs.length < 256 ^ 8 ∧
      ∀ p ∈ addrs, wfJob p.1 ∧ wfAddr p.2
  | .executeGraph gid => gid < 256 ^ 16
  | .shutdown => True

instance : DecidablePred wfAddr := fun _ => by unfold wfAddr; infer_instance

instance : DecidablePred wfJob := fun j => by cases j <;> (unfold wfJob; infer_instance)

instance : DecidablePred wfWorkerState := fun _ => by
  unfold wfWorkerState; infer_instance

instance : DecidablePred wfOperator := fun _ => by unfold wfOperator; infer_instance

instance : DecidablePred wfStream := fun _ => by unfold wfStream; infer_instance

instance : DecidablePred wfJobGraph := fun _ => by unfold wfJobGraph; infer_instance

instance : DecidablePred wfWorkerMsg := fun m => by
  cases m <;> (unfold wfWorkerMsg; infer_instance)

instance : DecidablePred wfLeaderMsg := fun m => by
  cases m <;> (unfold wfLeaderMsg; infer_instance)

end CP

/-! # Theorems -/

/-! ## Association-list lemmas -/

theorem lookupA_eraseA_self {α β : Type} [DecidableEq α] (l : List (α × β)) (k : α) :
    lookupA (eraseA l k) k = none := by
  induction l with
  | nil => rfl
  | cons p rest ih =>
    by_cases h : p.1 = k
    · simpa [eraseA, h] using ih
    · simpa [eraseA, lookupA, h, Ne.symm h] using ih

theorem eraseA_cons_self {α β : Type} [DecidableEq α] (p : α × β) (rest : List (α × β))
    {k : α} (hp : p.1 = k) : eraseA (p :: rest) k = eraseA rest k := by
  simp [eraseA, List.filter, hp]

theorem eraseA_cons_ne {α β : Type} [DecidableEq α] (p : α × β) (rest : List (α × β))
    {k : α} (hp : p.1 ≠ k) : eraseA (p :: rest) k = p :: eraseA rest k := by
  simp [eraseA, List.filter, hp]

theorem lookupA_eraseA_ne {α β : Type} [DecidableEq α] (l : List (α × β)) {k k' : α}
    (h : k' ≠ k) : lookupA (eraseA l k) k' = lookupA l k' := by
  induction l with
  | nil => rfl
  | cons p rest ih =>
    by_cases hp : p.1 = k
    · rw [eraseA_cons_self p rest hp, ih]
      have hne : k' ≠ p.1 := fun hh => h (hp ▸ hh)
      simp [lookupA, hne]
    · rw [eraseA_cons_ne p rest hp]
      by_cases hk : k' = p.1
      · simp [lookupA, hk]
      · simp [lookupA, hk, ih]

theorem lookupA_insertA_self {α β : Type} [DecidableEq α] (l : List (α × β)) (k : α)
    (v : β) : lookupA (insertA l k v) k = some v := by
  simp [insertA, lookupA]

theorem lookupA_insertA_ne {α β : Type} [DecidableEq α] (l : List (α × β)) {k k' : α}
    (v : β) (h : k' ≠ k) : lookupA (insertA l k v) k' = lookupA l k' := by
  simp only [insertA, lookupA, if_neg h]
  exact lookupA_eraseA_ne l h

/-! ## Codec round-trip lemmas -/

namespace CP

theorem natToBytesLE_length : ∀ (k n : Nat), (natToBytesLE k n).length = k
  | 0, _ => rfl
  | k + 1, n => by simp [natToBytesLE, natToBytesLE_length k]

theorem readNatLE_append : ∀ (k n : Nat) (r : List Nat), n < 256 ^ k →
    readNatLE k (natToBytesLE k n ++ r) = some (n, r)
  | 0, n, r, h => by
    have hn : n = 0 := by omega
    simp [natToBytesLE, readNatLE, hn]
  | k + 1, n, r, h => by
    have hdiv : n / 256 < 256 ^ k := by
      rw [Nat.div_lt_iff_lt_mul (by norm_num)]
      calc n < 256 ^ (k + 1) := h
        _ = 256 ^ k * 256 := by rw [pow_succ]
    have hrec := readNatLE_append k (n / 256) r hdiv
    rw [natToBytesLE, List.cons_append, readNatLE, hrec]
    show some (n % 256 + 256 * (n / 256), r) = some (n, r)
    rw [Nat.mod_add_div]

theorem readNatLE_exact (k n : Nat) (h : n < 256 ^ k) :
    readNatLE k (natToBytesLE k n) = some (n, []) := by
  have := readNatLE_append k n [] h
  simpa using this

theorem readBytes_append : ∀ (l r : List Nat), readBytes l.length (l ++ r) = some (l, r)
  | [], r => by simp [readBytes]
  | b :: bs, r => by
    have hrec := readBytes_append bs r
    rw [List.length_cons, List.cons_append, readBytes, hrec]

theorem decBytes_enc (l r : List Nat) (h : l.length < 256 ^ 8) :
    decBytes (encBytes l ++ r) = some (l, r) := by
  have h1 := readNatLE_append 8 l.length (l ++ r) h
  have h2 := readBytes_append l r
  simp only [decBytes, encBytes, List.append_assoc, h1, h2]

theorem readListE_enc {α : Type} (dec : List Nat → Option (α × List Nat))
    (enc : α → List Nat) (l : List α) (r : List Nat)
    (H : ∀ a ∈ l, ∀ r', dec (enc a ++ r') = some (a, r')) :
    readListE dec l.length ((l.map enc).flatten ++ r) = some (l, r) := by
  induction l with
  | nil => simp [readListE]
  | cons a as ih =>
    have h1 := H a (by simp) ((as.map enc).flatten ++ r)
    have h2 := ih (fun a ha r' => H a (by simp [ha]) r')
    simp only [List.map_cons, List.flatten_cons, List.length_cons, List.append_assoc,
      readListE, h1, h2]

theorem decList_enc {α : Type} (dec : List Nat → Option (α × List Nat))
    (enc : α → List Nat) (l : List α) (r : List Nat) (hlen : l.length < 256 ^ 8)
    (H : ∀ a ∈ l, ∀ r', dec (enc a ++ r') = some (a, r')) :
    decList dec (encList enc l ++ r) = some (l, r) := by
  have h1 := readNatLE_append 8 l.length ((l.map enc).flatten ++ r) hlen
  have h2 := readListE_enc dec enc l r H
  simp only [decList, encList, List.append_assoc, h1, h2]

theorem decId_enc (n : Nat) (r : List Nat) (h : n < 256 ^ 16) :
    decId (encId n ++ r) = some (n, r) := by
  simp only [decId, encId]
  exact readNatLE_append 16 n r h

theorem decJob_enc (j : Job) (r : List Nat) (h : wfJob j) :
    decJob (encJob j ++ r) = some (j, r) := by
  cases j with
  | operator oid =>
    have h1 := decId_enc oid r h
    simp only [encJob, List.cons_append, decJob, h1]
  | driver => simp [encJob, decJob]

theorem decAddr_enc (a : WAddr) (r : List Nat) (h : wfAddr a) :
    decAddr (encAddr a ++ r) = some (a, r) := by
  obtain ⟨h1, h2⟩ := h
  have e1 := readNatLE_append 4 a.host (natToBytesLE 2 a.port ++ r) h1
  have e2 := readNatLE_append 2 a.port r h2
  simp only [decAddr, encAddr, List.append_assoc, e1, e2]

theorem decWorkerState_enc (w : WWorkerState) (r : List Nat) (h : wfWorkerState w) :
    decWorkerState (encWorkerState w ++ r) = some (w, r) := by
  obtain ⟨h1, h2, h3⟩ := h
  have e1 := decId_enc w.id (encAddr w.address ++ (natToBytesLE 8 w.resources ++ r)) h1
  have e2 := decAddr_enc w.address (natToBytesLE 8 w.resources ++ r) h2
  have e3 := readNatLE_append 8 w.resources r h3
  simp only [decWorkerState, encWorkerState, List.append_assoc, e1, e2, e3]

theorem decOperator_enc (o : WOperator) (r : List Nat) (h : wfOperator o) :
    decOperator (encOperator o ++ r) = some (o, r) := by
  obtain ⟨h1, h2, h3, h4, h5, h6, h7⟩ := h
  have e1 := decId_enc o.id
    (encBytes o.name ++ (encList encId o.read_streams ++
      (encList encId o.write_streams ++ (o.op_type % 256 :: r)))) h1
  have e2 := decBytes_enc o.name
    (encList encId o.read_streams ++ (encList encId o.write_streams ++
      (o.op_type % 256 :: r))) h2
  have e3 := decList_enc decId encId o.read_streams
    (encList encId o.write_streams ++ (o.op_type % 256 :: r)) h3
    (fun a ha r' => decId_enc a r' (h4 a ha))
  have e4 := decList_enc decId encId o.write_streams (o.op_type % 256 :: r) h5
    (fun a ha r' => decId_enc a r' (h6 a ha))
  simp only [decOperator, encOperator, List.append_assoc, List.cons_append,
    List.nil_append, e1, e2, e3, e4]
  simp [Nat.mod_eq_of_lt h7]

theorem decStream_enc (s : WStream) (r : List Nat) (h : wfStream s) :
    decStream (encStream s ++ r) = some (s, r) := by
  obtain ⟨h1, h2, h3, h4, h5⟩ := h
  have e1 := decId_enc s.id
    (encBytes s.name ++ (encJob s.source ++ (encList encJob s.destinations ++ r))) h1
  have e2 := decBytes_enc s.name
    (encJob s.source ++ (encList encJob s.destinations ++ r)) h2
  have e3 := decJob_enc s.source (encList encJob s.destinations ++ r) h3
  have e4 := decList_enc decJob encJob s.destinations r h4
    (fun a ha r' => decJob_enc a r' (h5 a ha))
  simp only [decStream, encStream, List.append_assoc, e1, e2, e3, e4]

theorem decJobGraph_enc (g : WJobGraph) (r : List Nat) (h : wfJobGraph g) :
    decJobGraph (encJobGraph g ++ r) = some (g, r) := by
  obtain ⟨h1, h2, h3, h4, h5, h6⟩ := h
  have e1 := decId_enc g.id
    (encBytes g.name ++ (encList encOperator g.operators ++
      (encList encStream g.streams ++ r))) h1
  have e2 := decBytes_enc g.name
    (encList encOperator g.operators ++ (encList encStream g.streams ++ r)) h2
  have e3 := decList_enc decOperator encOperator g.operators
    (encList encStream g.streams ++ r) h3 (fun a ha r' => decOperator_enc a r' (h4 a ha))
  have e4 := decList_enc decStream encStream g.streams r h5
    (fun a ha r' => decStream_enc a r' (h6 a ha))
  simp only [decJobGraph, encJobGraph, List.append_assoc, e1, e2, e3, e4]

theorem decPairJA_enc (p : Job × WAddr) (r : List Nat) (h : wfJob p.1 ∧ wfAddr p.2) :
    decPairJA (encPairJA p ++ r) = some (p, r) := by
  have e1 := decJob_enc p.1 (encAddr p.2 ++ r) h.1
  have e2 := decAddr_enc p.2 r h.2
  simp only [decPairJA, encPairJA, List.append_assoc, e1, e2]

theorem decWorkerMsg_enc (m : WorkerMsg) (r : List Nat) (h : wfWorkerMsg m) :
    decWorkerMsg (encWorkerMsg m ++ r) = some (m, r) := by
  cases m with
  | initialized w =>
    have e1 := decWorkerState_enc w r h
    simp only [encWorkerMsg, List.cons_append, decWorkerMsg, e1]
  | submitGraph gid g =>
    obtain ⟨h1, h2⟩ := h
    have e1 := decId_enc gid (encJobGraph g ++ r) h1
    have e2 := decJobGraph_enc g r h2
    simp only [encWorkerMsg, List.cons_append, List.append_assoc, decWorkerMsg, e1, e2]
  | jobReady gid j =>
    obtain ⟨h1, h2⟩ := h
    have e1 := decId_enc gid (encJob j ++ r) h1
    have e2 := decJob_enc j r h2
    simp only [encWorkerMsg, List.cons_append, List.append_assoc, decWorkerMsg, e1, e2]
  | shutdown => simp [encWorkerMsg, decWorkerMsg]

theorem decLeaderMsg_enc (m : LeaderMsg) (r : List Nat) (h : wfLeaderMsg m) :
    decLeaderMsg (encLeaderMsg m ++ r) = some (m, r) := by
  cases m with
  | scheduleJob gid j addrs =>
    obtain ⟨h1, h2, h3, h4⟩ := h
    have e1 := decId_enc gid (encJob j ++ (encList encPairJA addrs ++ r)) h1
    have e2 := decJob_enc j (encList encPairJA addrs ++ r) h2
    have e3 := decList_enc decPairJA encPairJA addrs r h3
      (fun a ha r' => decPairJA_enc a r' (h4 a ha))
    simp only [encLeaderMsg, List.cons_append, List.append_assoc, decLeaderMsg, e1, e2, e3]
  | executeGraph gid =>
    have e1 := decId_enc gid r h
    simp only [encLeaderMsg, List.cons_append, decLeaderMsg, e1]
  | shutdown => simp [encLeaderMsg, decLeaderMsg]

theorem decodeFrame_enc (p r : List Nat) (h : p.length ≤ maxFrameLen) :
    decodeFrame (encodeFrame p ++ r) = some (p, r) := by
  have hlen : p.length < 256 ^ 4 := lt_of_le_of_lt h (by norm_num [maxFrameLen])
  have h4 : (natToBytesLE 4 p.length).reverse.length = 4 := by
    simp [natToBytesLE_length]
  have e1 := readBytes_append (natToBytesLE 4 p.length).reverse (p ++ r)
  rw [h4] at e1
  have e2 := readNatLE_exact 4 p.length hlen
  have e3 := readBytes_append p r
  simp only [decodeFrame, encodeFrame, List.append_assoc, e1, List.reverse_reverse, e2,
    if_pos h, e3]

end CP

/-- C5: for every control-plane message `m` drawn from the control vocabulary
(§6, as modelled from the spec — the codec source is missing from the
snapshot), decoding the framed encoding of `m` yields `m` again, in both
directions of the protocol.  Wellformedness is the Rust type invariant of the
message's fields (128-bit ids, IPv4 addresses, `usize` lengths) plus the
64 MiB frame bound of §4.1. -/
theorem C5_control_codec_round_trip :
    (∀ m : CP.WorkerMsg, CP.wfWorkerMsg m →
      (CP.encWorkerMsg m).length ≤ CP.maxFrameLen →
      CP.decodeWorkerFrame (CP.encodeWorkerFrame m) = some m) ∧
    (∀ m : CP.LeaderMsg, CP.wfLeaderMsg m →
      (CP.encLeaderMsg m).length ≤ CP.maxFrameLen →
      CP.decodeLeaderFrame (CP.encodeLeaderFrame m) = some m) := by
  constructor
  · intro m hwf hlen
    have hf := CP.decodeFrame_enc (CP.encWorkerMsg m) [] hlen
    simp only [List.append_nil] at hf
    have hm := CP.decWorkerMsg_enc m [] hwf
    simp only [List.append_nil] at hm
    simp [CP.decodeWorkerFrame, CP.encodeWorkerFrame, hf, hm]
  · intro m hwf hlen
    have hf := CP.decodeFrame_enc (CP.encLeaderMsg m) [] hlen
    simp only [List.append_nil] at hf
    have hm := CP.decLeaderMsg_enc m [] hwf
    simp only [List.append_nil] at hm
    simp [CP.decodeLeaderFrame, CP.encodeLeaderFrame, hf, hm]

/-- Witness for C5: a concrete `JobReady` frame and a concrete `ExecuteGraph`
frame round-trip. -/
theorem C5_control_codec_round_trip_witness :
    (CP.wfWorkerMsg (CP.WorkerMsg.jobReady 7 (Job.operator 3)) ∧
      CP.decodeWorkerFrame
        (CP.encodeWorkerFrame (CP.WorkerMsg.jobReady 7 (Job.operator 3))) =
        some (CP.WorkerMsg.jobReady 7 (Job.operator 3))) ∧
    (CP.wfLeaderMsg (CP.LeaderMsg.executeGraph 9) ∧
      CP.decodeLeaderFrame (CP.encodeLeaderFrame (CP.LeaderMsg.executeGraph 9)) =
        some (CP.LeaderMsg.executeGraph 9)) := by
  refine ⟨⟨by decide, ?_⟩, ⟨by decide, ?_⟩⟩
  · exact C5_control_codec_round_trip.1 (CP.WorkerMsg.jobReady 7 (Job.operator 3))
      (by decide) (by decide)
  · exact C5_control_codec_round_trip.2 (CP.LeaderMsg.executeGraph 9)
      (by decide) (by decide)

/-- C6: `WorkerHandle::submit` first performs exactly the work of
`WorkerHandle::register` (compiling the graph and delivering `RegisterGraph`)
and only afterwards delivers `SubmitGraph`; on success it returns the id that
`register` returns, and if registration fails no `SubmitGraph` notification
is sent. -/
theorem C6_submit_performs_register
    (compile : DriverGraph → Except GraphCompilationError JobGraph)
    (regSendOk subSendOk : Bool) (g : DriverGraph) :
    ((WorkerHandle.submit compile regSendOk subSendOk g).2.take
        (WorkerHandle.register compile regSendOk g).2.length =
      (WorkerHandle.register compile regSendOk g).2) ∧
    (∀ gid, (WorkerHandle.register compile regSendOk g).1 = .ok gid →
      subSendOk = true →
      (WorkerHandle.submit compile regSendOk subSendOk g).1 = .ok gid ∧
      (WorkerHandle.submit compile regSendOk subSendOk g).2 =
        (WorkerHandle.register compile regSendOk g).2 ++
          [DriverNotification.submitGraph gid]) ∧
    (∀ gid, (WorkerHandle.submit compile regSendOk subSendOk g).1 = .ok gid →
      (WorkerHandle.register compile regSendOk g).1 = .ok gid) ∧
    (∀ e, (WorkerHandle.register compile regSendOk g).1 = .error e →
      (WorkerHandle.submit compile regSendOk subSendOk g) =
        (.error e, (WorkerHandle.register compile regSendOk g).2) ∧
      ∀ gid, DriverNotification.submitGraph gid ∉
        (WorkerHandle.submit compile regSendOk subSendOk g).2) := by
  cases hc : compile g <;> cases regSendOk <;> cases subSendOk <;>
    simp [WorkerHandle.submit, WorkerHandle.register, hc]

/-- Witness for C6: with a compiler that always succeeds and both sends
succeeding, `submit` returns the compiled id and delivers `RegisterGraph`
then `SubmitGraph`. -/
theorem C6_submit_performs_register_witness :
    (WorkerHandle.register (fun _ => .ok ⟨"g", [], []⟩) true ⟨0⟩).1 = .ok "g" ∧
    (WorkerHandle.submit (fun _ => .ok ⟨"g", [], []⟩) true true ⟨0⟩).1 = .ok "g" ∧
    (WorkerHandle.submit (fun _ => .ok ⟨"g", [], []⟩) true true ⟨0⟩).2 =
      [DriverNotification.registerGraph ⟨"g", [], []⟩,
       DriverNotification.submitGraph "g"] := by
  have h := C6_submit_performs_register (fun _ => .ok ⟨"g", [], []⟩) true true ⟨0⟩
  have h2 := h.2.1 "g" rfl rfl
  exact ⟨rfl, h2.1, by simpa using h2.2⟩

/-- All-success behavior of `DataSender::run`: every drained message is
written, in order, and a closed queue ends the task with `Disconnected`. -/
theorem senderRun_all_ok (queue : List (Nat × Option CommErr)) (closed : Bool)
    (h : ∀ p ∈ queue, p.2 = none) :
    senderRun true queue closed =
      (queue.map Prod.fst, if closed then some .disconnected else none) := by
  induction queue with
  | nil => cases closed <;> simp [senderRun]
  | cons p rest ih =>
    have hp : p.2 = none := h p (by simp)
    obtain ⟨m, w⟩ := p
    simp only at hp
    subst hp
    simp only [senderRun, List.map_cons]
    rw [ih (fun q hq => h q (by simp [hq]))]

/-- Order preservation of `DataSender::run` without assumptions: whatever is
written to the TCP stream is an in-order prefix of the drained queue. -/
theorem senderRun_prefix (initOk : Bool) (queue : List (Nat × Option CommErr))
    (closed : Bool) :
    (senderRun initOk queue closed).1 =
      (queue.take (senderRun initOk queue closed).1.length).map Prod.fst := by
  cases initOk with
  | false => simp [senderRun]
  | true =>
    induction queue with
    | nil => cases closed <;> simp [senderRun]
    | cons p rest ih =>
      obtain ⟨m, w⟩ := p
      cases w with
      | some e => simp [senderRun]
      | none =>
        simp only [senderRun, List.length_cons, List.take_succ_cons, List.map_cons]
        exact congrArg (m :: ·) ih

/-- C7: the `DataSender` task forwards each message drained from its
in-process queue to the framed TCP stream in FIFO order, and closing of the
queue (loss of its peer) terminates `DataSender::run` with the
`Disconnected` error.  A failing TCP write terminates the task with the
mapped error after having written exactly the preceding messages in order. -/
theorem C7_data_sender_fifo_and_disconnected
    (queue : List (Nat × Option CommErr)) (closed : Bool) :
    ((∀ p ∈ queue, p.2 = none) →
      (senderRun true queue closed).1 = queue.map Prod.fst ∧
      (closed = true → (senderRun true queue closed).2 = some .disconnected)) ∧
    ((senderRun true queue closed).1 =
      (queue.take (senderRun true queue closed).1.length).map Prod.fst) ∧
    (∀ q1 m e q2, queue = q1 ++ (m, some e) :: q2 → (∀ p ∈ q1, p.2 = none) →
      senderRun true queue closed = (q1.map Prod.fst, some e)) := by
  refine ⟨fun h => ?_, senderRun_prefix true queue closed, ?_⟩
  · rw [senderRun_all_ok queue closed h]
    cases closed <;> simp
  · intro q1 m e q2 hq h1
    subst hq
    induction q1 with
    | nil => simp [senderRun]
    | cons p rest ih =>
      have hp : p.2 = none := h1 p (by simp)
      obtain ⟨m', w⟩ := p
      simp only at hp
      subst hp
      have hrec := ih (fun q hq => h1 q (by simp [hq]))
      simp only [List.cons_append, senderRun, List.map_cons, List.append_eq, hrec]

/-- Witness for C7: a concrete queue of three frames followed by queue
closure is written in order and ends with `Disconnected`. -/
theorem C7_data_sender_fifo_and_disconnected_witness :
    (∀ p ∈ ([(10, none), (20, none), (30, none)] : List (Nat × Option CommErr)),
      p.2 = none) ∧
    (senderRun true [(10, none), (20, none), (30, none)] true).1 = [10, 20, 30] ∧
    (senderRun true [(10, none), (20, none), (30, none)] true).2 =
      some .disconnected := by
  have h := (C7_data_sender_fifo_and_disconnected
    [(10, none), (20, none), (30, none)] true).1 (by decide)
  exact ⟨by decide, h.1, h.2 rfl⟩

/-- C10: a `SubmitGraph` driver notification for a `JobGraphId` that was
never registered sends nothing to the Leader and leaves the Worker's state
(registered graphs, pending stream setups, job states) unchanged. -/
theorem C10_unregistered_submit_is_noop (st : WState) (gid : JobGraphId)
    (h : lookupA st.job_graphs gid = none) :
    handleDriverMessage st (.submitGraph gid) = (st, []) ∧
    workerStep st (.driver (.submitGraph gid)) = .cont st [] := by
  constructor
  · simp [handleDriverMessage, h]
  · simp [workerStep, handleDriverMessage, h]

/-- Witness for C10: submitting an unknown id on a fresh Worker. -/
theorem C10_unregistered_submit_is_noop_witness :
    lookupA initWState.job_graphs "nope" = none ∧
    workerStep initWState (.driver (.submitGraph "nope")) = .cont initWState [] :=
  ⟨rfl, (C10_unregistered_submit_is_noop initWState "nope" rfl).2⟩

/-- C2 (code bug): registering inter-worker receive endpoints for a stream
with two distinct local receiving jobs stores only ONE endpoint in the
stream's pusher, keyed by the stream's SOURCE job — the source passes
`stream.get_source()` instead of `receiving_job` to
`Pusher::add_endpoint`, so the second registration overwrites the first and
neither receiving job keys an endpoint.  The claim (and spec §4.4) require
one endpoint per local destination, keyed by the receiving job. -/
theorem C2_pusher_keyed_by_source :
    (let stream : AbstractStream :=
      { id := 5, source := Job.operator 1,
        destinations := [Job.operator 2, Job.operator 3] }
    let st1 := (initSMState.add_inter_worker_recv_endpoint stream (Job.operator 2)).1
    let st2 := (st1.add_inter_worker_recv_endpoint stream (Job.operator 3)).1
    (lookupA st2.stream_pushers 5).map (fun p => p.endpoints) =
      some [(Job.operator 1, 1)] ∧
    (lookupA st2.stream_pushers 5).map (fun p => p.endpoints.length) = some 1 ∧
    ((lookupA st2.stream_pushers 5).map
      (fun p => lookupA p.endpoints (Job.operator 2))) = some none ∧
    ((lookupA st2.stream_pushers 5).map
      (fun p => lookupA p.endpoints (Job.operator 3))) = some none) := by
  decide

/-- A successful `take_recv_endpoint` pops the head of the stored
receive-endpoint list. -/
theorem take_recv_ok_values (st : SMState) (sid : StreamId) (chan : Nat) (st' : SMState)
    (h : st.take_recv_endpoint sid = .ok (chan, st')) :
    recvValues st sid = chan :: recvValues st' sid := by
  unfold SMState.take_recv_endpoint at h
  cases hl : lookupA st.stream_entries sid with
  | none => rw [hl] at h; exact absurd h (by simp)
  | some e =>
    rw [hl] at h
    dsimp only at h
    cases hr : e.recv_endpoints with
    | nil =>
      rw [show e.take_recv_endpoint = none from by
        simp [StreamEndpointsModel.take_recv_endpoint, hr]] at h
      exact absurd h (by simp)
    | cons p rest =>
      obtain ⟨j, c⟩ := p
      rw [show e.take_recv_endpoint =
          some (c, { e with recv_endpoints := rest }) from by
        simp [StreamEndpointsModel.take_recv_endpoint, hr]] at h
      simp only [Except.ok.injEq, Prod.mk.injEq] at h
      obtain ⟨hc, hst⟩ := h
      subst hc
      subst hst
      simp [recvValues, hl, hr, lookupA_insertA_self]

/-- `take_recv_endpoint` fails exactly when no receive endpoint is stored
for the stream id (unknown stream or exhausted entry). -/
theorem take_recv_error_iff_empty (st : SMState) (sid : StreamId) :
    (∃ msg, st.take_recv_endpoint sid = .error msg) ↔ recvValues st sid = [] := by
  unfold SMState.take_recv_endpoint recvValues
  cases hl : lookupA st.stream_entries sid with
  | none => simp
  | some e =>
    cases hr : e.recv_endpoints with
    | nil => simp [StreamEndpointsModel.take_recv_endpoint, hr]
    | cons p rest =>
      obtain ⟨j, c⟩ := p
      simp [StreamEndpointsModel.take_recv_endpoint, hr]

/-- Replaying `n` takes pops exactly the first `n` stored endpoints, in
order, and leaves the rest stored. -/
theorem takeSeq_spec (sid : StreamId) : ∀ (n : Nat) (st : SMState),
    (takeSeq st sid n).1 = (recvValues st sid).take n ∧
    recvValues (takeSeq st sid n).2 sid = (recvValues st sid).drop n
  | 0, st => by simp [takeSeq]
  | n + 1, st => by
    cases ht : st.take_recv_endpoint sid with
    | ok r =>
      obtain ⟨chan, st'⟩ := r
      have hv := take_recv_ok_values st sid chan st' ht
      have ih := takeSeq_spec sid n st'
      simp only [takeSeq, ht, hv, List.take_succ_cons, List.drop_succ_cons]
      exact ⟨congrArg (chan :: ·) ih.1, ih.2⟩
    | error msg =>
      have hv : recvValues st sid = [] :=
        (take_recv_error_iff_empty st sid).mp ⟨msg, ht⟩
      simp [takeSeq, ht, hv]

/-- C9: the stream manager enforces single-take of receive endpoints: a
successful `take_recv_endpoint` (or `take_read_stream`) removes exactly the
returned endpoint from the store; when nothing is stored for a stream id the
calls return an error; `n` successive takes hand out the first `n` stored
endpoints in order — pairwise distinct when the stored endpoints are — and
once all stored endpoints are taken (or none exist) every further call
errors rather than duplicating an endpoint. -/
theorem C9_recv_endpoint_single_take (st : SMState) (sid : StreamId) :
    (∀ chan st', st.take_recv_endpoint sid = .ok (chan, st') →
      recvValues st sid = chan :: recvValues st' sid ∧
      (recvValues st' sid).length + 1 = (recvValues st sid).length) ∧
    (∀ p st', st.take_read_stream sid = .ok (p, st') →
      p.1 = sid ∧ recvValues st sid = p.2 :: recvValues st' sid) ∧
    (recvValues st sid = [] → ∃ msg, st.take_recv_endpoint sid = .error msg) ∧
    (∀ n, (takeSeq st sid n).1 = (recvValues st sid).take n) ∧
    (∀ n, n ≥ (recvValues st sid).length →
      ∃ msg, ((takeSeq st sid n).2).take_recv_endpoint sid = .error msg) ∧
    ((recvValues st sid).Nodup → ∀ n, ((takeSeq st sid n).1).Nodup) := by
  refine ⟨?_, ?_, ?_, ?_, ?_, ?_⟩
  · intro chan st' h
    have hv := take_recv_ok_values st sid chan st' h
    exact ⟨hv, by rw [hv]; simp⟩
  · intro p st' h
    unfold SMState.take_read_stream at h
    cases ht : st.take_recv_endpoint sid with
    | ok r =>
      obtain ⟨chan, st''⟩ := r
      rw [ht] at h
      simp only [Except.ok.injEq, Prod.mk.injEq] at h
      obtain ⟨hp, hst⟩ := h
      subst hst
      exact ⟨by rw [← hp], by rw [← hp]; exact take_recv_ok_values st sid chan st'' ht⟩
    | error msg => rw [ht] at h; exact absurd h (by simp)
  · intro h
    exact (take_recv_error_iff_empty st sid).mpr h
  · intro n
    exact (takeSeq_spec sid n st).1
  · intro n hn
    apply (take_recv_error_iff_empty _ sid).mpr
    rw [(takeSeq_spec sid n st).2]
    exact List.drop_eq_nil_of_le hn
  · intro hnd n
    rw [(takeSeq_spec sid n st).1]
    exact hnd.sublist (List.take_sublist n _)

/-- Witness for C9: a stream with two stored endpoints hands them out in
order and then errors. -/
theorem C9_recv_endpoint_single_take_witness :
    let e : StreamEndpointsModel :=
      { stream_id := 7,
        recv_endpoints := [(Job.operator 1, 0), (Job.operator 2, 1)],
        send_endpoints := [] }
    let st : SMState := { stream_entries := [(7, e)], stream_pushers := [], fresh := 2 }
    (takeSeq st 7 2).1 = [0, 1] ∧
    2 ≥ (recvValues st 7).length ∧
    ∃ msg, ((takeSeq st 7 2).2).take_recv_endpoint 7 = .error msg := by
  intro e st
  have h := C9_recv_endpoint_single_take st 7
  refine ⟨?_, by decide, h.2.2.2.2.1 2 (by decide)⟩
  rw [h.2.2.2.1 2]
  decide

/-- Lookup distributes over list append (first list wins). -/
theorem lookupA_append {α β : Type} [DecidableEq α] (l1 l2 : List (α × β)) (k : α) :
    lookupA (l1 ++ l2) k =
      match lookupA l1 k with
      | some v => some v
      | none => lookupA l2 k := by
  induction l1 with
  | nil => simp [lookupA]
  | cons p rest ih =>
    by_cases hk : k = p.1
    · simp [lookupA, hk]
    · simp only [List.cons_append, lookupA, if_neg hk]
      exact ih

/-- After draining the pending updates, a stream id resolves to its latest
pending update when one exists, and to the old snapshot entry otherwise. -/
theorem lookupA_applyUpdates (ups : List (StreamId × PusherObj)) :
    ∀ (m : List (StreamId × PusherObj)) (sid : StreamId),
    lookupA (applyUpdates m ups) sid =
      match lastUpdateFor ups sid with
      | some p => some p
      | none => lookupA m sid := by
  induction ups with
  | nil => intro m sid; simp [applyUpdates, lastUpdateFor, lookupA]
  | cons u rest ih =>
    intro m sid
    obtain ⟨s, p⟩ := u
    have happ := lookupA_append rest.reverse [(s, p)] sid
    simp only [applyUpdates, lastUpdateFor, List.reverse_cons] at *
    rw [ih (insertA m s p) sid, happ]
    cases hrest : lookupA rest.reverse sid with
    | some v => simp
    | none =>
      by_cases hs : sid = s
      · subst hs
        simp [lookupA, lookupA_insertA_self]
      · simp [lookupA, hs, lookupA_insertA_ne m p hs, lookupA_eraseA_ne m hs]

/-- A run that completed `.ok` is a prefix of any extended run: the extension
continues from the final snapshot and appends its log. -/
theorem receiverRun_append (evs1 : List TcpEvent) :
    ∀ (ps : List (StreamId × PusherObj)), (receiverRun ps evs1).result = .ok →
    ∀ evs2 : List TcpEvent,
    receiverRun ps (evs1 ++ evs2) =
      { pushers := (receiverRun (receiverRun ps evs1).pushers evs2).pushers,
        log := (receiverRun ps evs1).log ++
          (receiverRun (receiverRun ps evs1).pushers evs2).log,
        result := (receiverRun (receiverRun ps evs1).pushers evs2).result } := by
  induction evs1 with
  | nil => intro ps _ evs2; simp [receiverRun]
  | cons e es ih =>
    intro ps h evs2
    cases e with
    | tcpError => exact absurd h (by simp [receiverRun])
    | frame ups msg =>
      cases msg with
      | deserialized => exact absurd h (by simp [receiverRun])
      | serialized sid bytes =>
        cases hl : lookupA (applyUpdates ps ups) sid with
        | none =>
          rw [show (receiverRun ps (TcpEvent.frame ups (.serialized sid bytes) :: es)) =
            { pushers := applyUpdates ps ups, log := [],
              result := .panicMissingPusher sid } from by
              simp [receiverRun, hl]] at h
          exact absurd h (by simp)
        | some p =>
          by_cases hf : p.fails
          · rw [show (receiverRun ps (TcpEvent.frame ups (.serialized sid bytes) :: es)) =
              { pushers := applyUpdates ps ups, log := [(sid, p.pid, bytes)],
                result := .commErr } from by simp [receiverRun, hl, hf]] at h
            exact absurd h (by simp)
          · have hstep : ∀ rest : List TcpEvent,
                receiverRun ps (TcpEvent.frame ups (.serialized sid bytes) :: rest) =
                { pushers := (receiverRun (applyUpdates ps ups) rest).pushers,
                  log := (sid, p.pid, bytes) ::
                    (receiverRun (applyUpdates ps ups) rest).log,
                  result := (receiverRun (applyUpdates ps ups) rest).result } := by
              intro rest
              simp [receiverRun, hl, hf]
            rw [hstep es] at h
            simp only at h
            rw [List.cons_append, hstep (es ++ evs2), ih (applyUpdates ps ups) h evs2,
              hstep es]
            simp

/-- C3: an inbound serialized frame whose `metadata.stream_id` is absent from
the receiver's pusher snapshot — after the pending pusher updates were
applied — makes `DataReceiver::run` panic and terminate the connection: the
frame is not dispatched anywhere, no later frame is processed, and the run
ends in `panicMissingPusher` rather than silently dropping the frame. -/
theorem C3_missing_pusher_panics (ps : List (StreamId × PusherObj))
    (evs1 evs2 : List TcpEvent) (ups : List (StreamId × PusherObj))
    (sid : StreamId) (bytes : List Nat)
    (hok : (receiverRun ps evs1).result = .ok)
    (hmiss : lookupA (applyUpdates (receiverRun ps evs1).pushers ups) sid = none) :
    receiverRun ps (evs1 ++ TcpEvent.frame ups (.serialized sid bytes) :: evs2) =
      { pushers := applyUpdates (receiverRun ps evs1).pushers ups,
        log := (receiverRun ps evs1).log,
        result := .panicMissingPusher sid } := by
  rw [receiverRun_append evs1 ps hok (TcpEvent.frame ups (.serialized sid bytes) :: evs2)]
  simp [receiverRun, hmiss]

/-- Witness for C3: a frame for an uninstalled stream id after one good
frame. -/
theorem C3_missing_pusher_panics_witness :
    let p0 : PusherObj := { pid := 11, fails := false }
    let evs1 : List TcpEvent := [TcpEvent.frame [(1, p0)] (.serialized 1 [5])]
    (receiverRun [] evs1).result = .ok ∧
    lookupA (applyUpdates (receiverRun [] evs1).pushers []) 2 = none ∧
    receiverRun [] (evs1 ++ TcpEvent.frame [] (.serialized 2 [6]) :: []) =
      { pushers := applyUpdates (receiverRun [] evs1).pushers [],
        log := (receiverRun [] evs1).log,
        result := .panicMissingPusher 2 } := by
  intro p0 evs1
  refine ⟨by decide, by decide, ?_⟩
  exact C3_missing_pusher_panics [] evs1 [] [] 2 [6] (by decide) (by decide)

/-- C4: for every inbound frame, `DataReceiver::run` drains all pending
pusher updates and applies them to its local snapshot strictly before the
frame is looked up and dispatched: the pusher that receives the frame's
bytes is the one the post-update snapshot maps the frame's stream id to, so
it is the latest update pending at the frame's arrival when there is one,
and the old snapshot entry only when no update for that id was pending. -/
theorem C4_updates_visible_before_dispatch (ps : List (StreamId × PusherObj))
    (evs1 evs2 : List TcpEvent) (ups : List (StreamId × PusherObj))
    (sid : StreamId) (bytes : List Nat) (p : PusherObj)
    (hok : (receiverRun ps evs1).result = .ok)
    (hfound : lookupA (applyUpdates (receiverRun ps evs1).pushers ups) sid = some p) :
    ((receiverRun ps (evs1 ++ TcpEvent.frame ups (.serialized sid bytes) :: evs2)).log =
      (receiverRun ps evs1).log ++ (sid, p.pid, bytes) ::
        (if p.fails then []
         else (receiverRun
           (applyUpdates (receiverRun ps evs1).pushers ups) evs2).log)) ∧
    (∀ p', lastUpdateFor ups sid = some p' → p = p') ∧
    (lastUpdateFor ups sid = none →
      lookupA (receiverRun ps evs1).pushers sid = some p) := by
  refine ⟨?_, ?_, ?_⟩
  · rw [receiverRun_append evs1 ps hok (TcpEvent.frame ups (.serialized sid bytes) :: evs2)]
    by_cases hf : p.fails
    · simp [receiverRun, hfound, hf]
    · simp [receiverRun, hfound, hf]
  · intro p' hlast
    have := lookupA_applyUpdates ups (receiverRun ps evs1).pushers sid
    rw [hfound, hlast] at this
    exact Option.some.inj this
  · intro hlast
    have := lookupA_applyUpdates ups (receiverRun ps evs1).pushers sid
    rw [hfound, hlast] at this
    exact this.symm

/-- Witness for C4: an update for stream 1 pending at the frame's arrival is
the pusher that dispatches the frame. -/
theorem C4_updates_visible_before_dispatch_witness :
    let pOld : PusherObj := { pid := 11, fails := false }
    let pNew : PusherObj := { pid := 12, fails := false }
    (receiverRun [(1, pOld)] []).result = .ok ∧
    lookupA (applyUpdates (receiverRun [(1, pOld)] []).pushers [(1, pNew)]) 1 =
      some pNew ∧
    (receiverRun [(1, pOld)]
        ([] ++ TcpEvent.frame [(1, pNew)] (.serialized 1 [9]) :: [])).log =
      (receiverRun [(1, pOld)] []).log ++ (1, pNew.pid, [9]) ::
        (if pNew.fails then []
         else (receiverRun
           (applyUpdates (receiverRun [(1, pOld)] []).pushers [(1, pNew)]) []).log) := by
  intro pOld pNew
  refine ⟨by decide, by decide, ?_⟩
  exact (C4_updates_visible_before_dispatch [(1, pOld)] [] [] [(1, pNew)] 1 [9] pNew
    (by decide) (by decide)).1

/-! ## Worker supervisor lemmas (C1 and C8) -/

/-- A stream fetched by id carries that id (`streams keyed by StreamId`). -/
theorem get_stream_id (jg : JobGraph) (sid : StreamId) (s : AbstractStream)
    (h : jg.get_stream sid = some s) : s.id = sid := by
  unfold JobGraph.get_stream at h
  have := List.find?_some h
  simpa using this

/-- The read-stream loop succeeds with exactly the requested ids. -/
theorem fetchReadIds_ids (jg : JobGraph) (addrs : List (Job × Addr)) :
    ∀ (l ids : List StreamId), fetchReadIds jg addrs l = some ids → ids = l := by
  intro l
  induction l with
  | nil => intro ids h; simpa [fetchReadIds] using h.symm
  | cons rid rest ih =>
    intro ids h
    unfold fetchReadIds at h
    cases hs : jg.get_stream rid with
    | none => rw [hs] at h; exact absurd h (by simp)
    | some s =>
      rw [hs] at h
      dsimp only at h
      cases ha : lookupA addrs s.source with
      | none => rw [ha] at h; exact absurd h (by simp)
      | some a =>
        rw [ha] at h
        dsimp only at h
        cases hr : fetchReadIds jg addrs rest with
        | none => rw [hr] at h; exact absurd h (by simp)
        | some ids' =>
          rw [hr] at h
          have hids := Option.some.inj h
          rw [← hids, ih ids' hr, get_stream_id jg rid s hs]

/-- The write-stream loop succeeds with exactly the requested ids. -/
theorem fetchWriteIds_ids (jg : JobGraph) (addrs : List (Job × Addr)) :
    ∀ (l ids : List StreamId), fetchWriteIds jg addrs l = some ids → ids = l := by
  intro l
  induction l with
  | nil => intro ids h; simpa [fetchWriteIds] using h.symm
  | cons wid rest ih =>
    intro ids h
    unfold fetchWriteIds at h
    cases hs : jg.get_stream wid with
    | none => rw [hs] at h; exact absurd h (by simp)
    | some s =>
      rw [hs] at h
      dsimp only at h
      by_cases hd : s.destinations.all (fun d => (lookupA addrs d).isSome)
      · rw [if_pos hd] at h
        cases hr : fetchWriteIds jg addrs rest with
        | none => rw [hr] at h; exact absurd h (by simp)
        | some ids' =>
          rw [hr] at h
          have hids := Option.some.inj h
          rw [← hids, ih ids' hr, get_stream_id jg wid s hs]
      · rw [if_neg hd] at h; exact absurd h (by simp)

/-- A successful stream-construction loop collects exactly the operator's
read then write stream ids. -/
theorem buildStreams_ids (jg : JobGraph) (op : AbstractOperator)
    (addrs : List (Job × Addr)) (ids : List StreamId)
    (h : buildStreams jg op addrs = some ids) :
    ids = op.read_streams ++ op.write_streams := by
  unfold buildStreams at h
  cases hr : fetchReadIds jg addrs op.read_streams with
  | none => rw [hr] at h; exact absurd h (by simp)
  | some readIds =>
    rw [hr] at h
    dsimp only at h
    cases hw : fetchWriteIds jg addrs op.write_streams with
    | none => rw [hw] at h; exact absurd h (by simp)
    | some writeIds =>
      rw [hw] at h
      have := Option.some.inj h
      rw [← this, fetchReadIds_ids jg addrs _ _ hr, fetchWriteIds_ids jg addrs _ _ hw]

/-- `ExecuteGraph` never changes the supervisor state and emits nothing to
the Leader (when it does not panic). -/
theorem handleExecuteGraph_some (st : WState) (gid : JobGraphId)
    (r : WState × List WorkerNotification) (h : handleExecuteGraph st gid = some r) :
    r = (st, []) := by
  unfold handleExecuteGraph at h
  cases hj : lookupA st.job_graph_to_job_state gid with
  | none => rw [hj] at h; exact absurd h (by simp)
  | some jmap =>
    rw [hj] at h
    dsimp only at h
    split at h
    · exact (Option.some.inj h).symm
    · exact absurd h (by simp)

/-- `ScheduleJob` emits nothing to the Leader, and either leaves the state
unchanged (unregistered graph / unknown job) or seeds the pending memo and
records the `Scheduled` state. -/
theorem handleScheduleJob_char (st : WState) (gid : JobGraphId) (job : Job)
    (addrs : List (Job × Addr)) (st' : WState) (out : List WorkerNotification)
    (h : handleScheduleJob st gid job addrs = some (st', out)) :
    out = [] ∧
    (st' = st ∨
      ∃ jg op ids, lookupA st.job_graphs gid = some jg ∧ jg.get_job job = some op ∧
        buildStreams jg op addrs = some ids ∧
        st' = { st with
          pending_stream_setups := insertA st.pending_stream_setups job (gid, ids.dedup),
          job_graph_to_job_state := insertA st.job_graph_to_job_state gid
            (insertA ((lookupA st.job_graph_to_job_state gid).getD []) job
              .scheduled) }) := by
  unfold handleScheduleJob at h
  cases hg : lookupA st.job_graphs gid with
  | none =>
    rw [hg] at h
    have := Option.some.inj h
    exact ⟨congrArg Prod.snd this |>.symm, Or.inl (congrArg Prod.fst this |>.symm)⟩
  | some jg =>
    rw [hg] at h
    dsimp only at h
    cases ho : jg.get_job job with
    | none =>
      rw [ho] at h
      have := Option.some.inj h
      exact ⟨congrArg Prod.snd this |>.symm, Or.inl (congrArg Prod.fst this |>.symm)⟩
    | some op =>
      rw [ho] at h
      dsimp only at h
      cases hb : buildStreams jg op addrs with
      | none => rw [hb] at h; exact absurd h (by simp)
      | some ids =>
        rw [hb] at h
        dsimp only at h
        have := Option.some.inj h
        refine ⟨congrArg Prod.snd this |>.symm, Or.inr ⟨jg, op, ids, rfl, ho, hb, ?_⟩⟩
        exact congrArg Prod.fst this |>.symm

/-- Full case characterization of the `StreamReady` handler. -/
theorem handleStreamReady_char (st : WState) (j0 : Job) (s0 : StreamId) :
    (lookupA st.pending_stream_setups j0 = none ∧
      handleStreamReady st j0 s0 = (st, [])) ∨
    (∃ gid pnd, lookupA st.pending_stream_setups j0 = some (gid, pnd) ∧
      ((¬s0 ∈ pnd ∧ handleStreamReady st j0 s0 = (st, [])) ∨
       (s0 ∈ pnd ∧ (pnd.erase s0).isEmpty = false ∧
         handleStreamReady st j0 s0 =
           ({ st with pending_stream_setups :=
               insertA st.pending_stream_setups j0 (gid, pnd.erase s0) }, [])) ∨
       (s0 ∈ pnd ∧ (pnd.erase s0).isEmpty = true ∧
         handleStreamReady st j0 s0 =
           ({ st with
              job_graph_to_job_state := readyUpdate st gid j0,
              pending_stream_setups := eraseA st.pending_stream_setups j0 },
            [WorkerNotification.jobReady gid j0])))) := by
  cases hE : lookupA st.pending_stream_setups j0 with
  | none => exact Or.inl ⟨rfl, by simp [handleStreamReady, hE]⟩
  | some e =>
    obtain ⟨gid, pnd⟩ := e
    refine Or.inr ⟨gid, pnd, rfl, ?_⟩
    by_cases hmem : s0 ∈ pnd
    · by_cases hemp : (pnd.erase s0).isEmpty
      · exact Or.inr (Or.inr ⟨hmem, hemp, by simp [handleStreamReady, hE, hmem, hemp]⟩)
      · exact Or.inr (Or.inl ⟨hmem, by simpa using hemp, by
          simp [handleStreamReady, hE, hmem, hemp]⟩)
    · exact Or.inl ⟨hmem, by simp [handleStreamReady, hE, hmem]⟩

/-- A `JobReady(g, j)` can only be emitted by a `StreamReady` notification
for job `j` that removes the last element of `j`'s pending set, which is at
that moment bound to graph `g`. -/
theorem jobReady_emission (g : JobGraphId) (j : Job) (st : WState) (m : WMsg)
    (hmem : WorkerNotification.jobReady g j ∈ stepOut (workerStep st m)) :
    ∃ s pnd, m = .dataPlane (.streamReady j s) ∧
      lookupA st.pending_stream_setups j = some (g, pnd) ∧
      s ∈ pnd ∧ pnd.erase s = [] := by
  cases m with
  | leader lm =>
    cases lm with
    | shutdown => simp [workerStep, stepOut] at hmem
    | executeGraph gid =>
      unfold workerStep at hmem
      dsimp only at hmem
      cases he : handleExecuteGraph st gid with
      | none => rw [he] at hmem; simp [stepOut] at hmem
      | some r =>
        rw [he] at hmem
        rw [handleExecuteGraph_some st gid r he] at hmem
        simp [stepOut] at hmem
    | scheduleJob gid job addrs =>
      unfold workerStep at hmem
      dsimp only at hmem
      cases hs : handleScheduleJob st gid job addrs with
      | none => rw [hs] at hmem; simp [stepOut] at hmem
      | some r =>
        obtain ⟨st', out⟩ := r
        rw [hs] at hmem
        obtain ⟨hout, -⟩ := handleScheduleJob_char st gid job addrs st' out hs
        subst hout
        simp [stepOut] at hmem
  | driver dm =>
    cases dm with
    | registerGraph jg => simp [workerStep, stepOut, handleDriverMessage] at hmem
    | submitGraph gid =>
      unfold workerStep handleDriverMessage at hmem
      dsimp only at hmem
      cases hl : lookupA st.job_graphs gid with
      | none => rw [hl] at hmem; simp [stepOut] at hmem
      | some jg => rw [hl] at hmem; simp [stepOut] at hmem
    | shutdown => simp [workerStep, stepOut] at hmem
  | dataPlane dp =>
    obtain ⟨j0, s0⟩ := dp
    have hstep : stepOut (workerStep st (.dataPlane (.streamReady j0 s0))) =
        (handleStreamReady st j0 s0).2 := by simp [workerStep, stepOut]
    rw [hstep] at hmem
    rcases handleStreamReady_char st j0 s0 with ⟨-, heq⟩ | ⟨gid, pnd, hE, hcase⟩
    · rw [heq] at hmem; simp at hmem
    · rcases hcase with ⟨-, heq⟩ | ⟨-, -, heq⟩ | ⟨hin, hemp, heq⟩
      · rw [heq] at hmem; simp at hmem
      · rw [heq] at hmem; simp at hmem
      · rw [heq] at hmem
        simp only [List.mem_singleton, WorkerNotification.jobReady.injEq] at hmem
        obtain ⟨hg, hj⟩ := hmem
        subst hg
        subst hj
        exact ⟨s0, pnd, rfl, hE, hin, by simpa using hemp⟩

theorem countJobReady_nil (g : JobGraphId) (j : Job) : countJobReady g j [] = 0 := rfl

theorem countJobReady_append (g : JobGraphId) (j : Job)
    (a b : List WorkerNotification) :
    countJobReady g j (a ++ b) = countJobReady g j a + countJobReady g j b :=
  List.countP_append _ _ _

theorem countJobReady_singleton (g : JobGraphId) (j : Job) (gid : JobGraphId)
    (j0 : Job) :
    countJobReady g j [WorkerNotification.jobReady gid j0] =
      if gid = g ∧ j0 = j then 1 else 0 := by
  by_cases h : gid = g ∧ j0 = j
  · obtain ⟨h1, h2⟩ := h
    subst h1; subst h2
    simp [countJobReady, List.countP_cons]
  · rw [if_neg h]
    simp only [countJobReady, List.countP_cons, List.countP_nil]
    have : ¬(WorkerNotification.jobReady gid j0 = WorkerNotification.jobReady g j) := by
      intro hc
      injection hc with hg hj
      exact h ⟨hg, hj⟩
    simp [this]

theorem pendN_lookup (st : WState) (g : JobGraphId) (j : Job) (gid : JobGraphId)
    (pnd : List StreamId)
    (h : lookupA st.pending_stream_setups j = some (gid, pnd)) :
    pendN st g j = if gid = g then 1 else 0 := by
  simp [pendN, h]

/-- Per-step counting invariant: every emitted `JobReady(g, j)` either
consumes the pending entry binding `j` to `g` or is licensed by the step's
message being `ScheduleJob(g, j)`. -/
theorem step_count_le (g : JobGraphId) (j : Job) (st : WState) (m : WMsg)
    (st' : WState) (out : List WorkerNotification)
    (h : workerStep st m = .cont st' out) :
    countJobReady g j out + pendN st' g j ≤
      pendN st g j + (if isScheduleJobFor g j m then 1 else 0) := by
  cases m with
  | leader lm =>
    cases lm with
    | shutdown => exact absurd h (by simp [workerStep])
    | executeGraph gid =>
      unfold workerStep at h
      dsimp only at h
      cases he : handleExecuteGraph st gid with
      | none => rw [he] at h; exact absurd h (by simp)
      | some r =>
        rw [he] at h
        have hr := handleExecuteGraph_some st gid r he
        subst hr
        dsimp only at h
        injection h with h1 h2
        subst h1; subst h2
        simp [countJobReady_nil]
    | scheduleJob gid job addrs =>
      unfold workerStep at h
      dsimp only at h
      cases hs : handleScheduleJob st gid job addrs with
      | none => rw [hs] at h; exact absurd h (by simp)
      | some r =>
        obtain ⟨st1, out1⟩ := r
        rw [hs] at h
        dsimp only at h
        injection h with h1 h2
        subst h1; subst h2
        obtain ⟨hout, hcase⟩ := handleScheduleJob_char st gid job addrs st1 out1 hs
        subst hout
        rcases hcase with hsame | ⟨jg, op, ids, -, -, -, hnew⟩
        · subst hsame
          simp [countJobReady_nil]
        · subst hnew
          have hpr : pendN { st with
              pending_stream_setups :=
                insertA st.pending_stream_setups job (gid, ids.dedup),
              job_graph_to_job_state := insertA st.job_graph_to_job_state gid
                (insertA ((lookupA st.job_graph_to_job_state gid).getD []) job
                  .scheduled) } g j =
              if j = job then (if gid = g then 1 else 0) else pendN st g j := by
            by_cases hj : j = job
            · subst hj; simp [pendN, lookupA_insertA_self]
            · simp [pendN, lookupA_insertA_ne _ _ hj, hj]
          rw [countJobReady_nil, hpr]
          by_cases hj : j = job
          · by_cases hg : gid = g
            · have hT : isScheduleJobFor g j
                  (WMsg.leader (LeaderNotification.scheduleJob gid job addrs)) = true := by
                simp [isScheduleJobFor, hg, hj]
              rw [if_pos hT, if_pos hj, if_pos hg]
              omega
            · rw [if_pos hj, if_neg hg]
              omega
          · rw [if_neg hj]
            omega
  | driver dm =>
    cases dm with
    | registerGraph jg =>
      unfold workerStep handleDriverMessage at h
      dsimp only at h
      injection h with h1 h2
      subst h1; subst h2
      simp [countJobReady_nil, pendN, isScheduleJobFor]
    | submitGraph gid =>
      unfold workerStep handleDriverMessage at h
      dsimp only at h
      cases hl : lookupA st.job_graphs gid with
      | none =>
        rw [hl] at h
        dsimp only at h
        injection h with h1 h2
        subst h1; subst h2
        simp [countJobReady_nil]
      | some jg =>
        rw [hl] at h
        dsimp only at h
        injection h with h1 h2
        subst h1; subst h2
        have : countJobReady g j [WorkerNotification.submitGraph gid jg] = 0 := by
          simp [countJobReady, List.countP_cons]
        simp [this]
    | shutdown => exact absurd h (by simp [workerStep])
  | dataPlane dp =>
    obtain ⟨j0, s0⟩ := dp
    have hstep : workerStep st (.dataPlane (.streamReady j0 s0)) =
        .cont (handleStreamReady st j0 s0).1 (handleStreamReady st j0 s0).2 := by
      simp [workerStep]
    rw [hstep] at h
    injection h with h1 h2
    have hsj : isScheduleJobFor g j (.dataPlane (.streamReady j0 s0)) = false := by
      simp [isScheduleJobFor]
    rw [hsj, if_neg (by simp)]
    rcases handleStreamReady_char st j0 s0 with ⟨-, heq⟩ | ⟨gid, pnd, hE, hcase⟩
    · rw [heq] at h1 h2
      dsimp only at h1 h2
      subst h1; subst h2
      simp [countJobReady_nil]
    · rcases hcase with ⟨-, heq⟩ | ⟨-, -, heq⟩ | ⟨-, -, heq⟩
      · rw [heq] at h1 h2
        dsimp only at h1 h2
        subst h1; subst h2
        simp [countJobReady_nil]
      · rw [heq] at h1 h2
        dsimp only at h1 h2
        subst h1; subst h2
        have hpr : pendN { st with
            pending_stream_setups :=
              insertA st.pending_stream_setups j0 (gid, pnd.erase s0) } g j =
            if j = j0 then (if gid = g then 1 else 0) else pendN st g j := by
          by_cases hj : j = j0
          · subst hj; simp [pendN, lookupA_insertA_self]
          · simp [pendN, lookupA_insertA_ne _ _ hj, hj]
        rw [countJobReady_nil, hpr]
        by_cases hj : j = j0
        · subst hj
          rw [if_pos rfl, pendN_lookup st g j gid pnd hE]
          omega
        · rw [if_neg hj]
          omega
      · rw [heq] at h1 h2
        dsimp only at h1 h2
        subst h1; subst h2
        have hpr : pendN { st with
            job_graph_to_job_state := readyUpdate st gid j0,
            pending_stream_setups := eraseA st.pending_stream_setups j0 } g j =
            if j = j0 then 0 else pendN st g j := by
          by_cases hj : j = j0
          · subst hj; simp [pendN, lookupA_eraseA_self]
          · simp [pendN, lookupA_eraseA_ne _ hj, hj]
        rw [countJobReady_singleton, hpr]
        by_cases hj : j = j0
        · rw [if_pos hj, hj, pendN_lookup st g j0 gid pnd hE]
          by_cases hg : gid = g
          · rw [if_pos ⟨hg, rfl⟩, if_pos hg]
          · rw [if_neg (by intro hc; exact hg hc.1), if_neg hg]
        · rw [if_neg hj, if_neg (by intro hc; exact hj hc.2.symm)]
          omega

/-- Run-level counting invariant: over any message sequence, the number of
`JobReady(g, j)` sent plus the surviving pending entry for `(g, j)` is
bounded by the initial entry plus the number of `ScheduleJob(g, j)`
received. -/
theorem run_count_le (g : JobGraphId) (j : Job) : ∀ (tr : List WMsg) (st : WState),
    countJobReady g j (workerRun st tr).out + pendN (workerRun st tr).state g j ≤
      pendN st g j + tr.countP (isScheduleJobFor g j) := by
  intro tr
  induction tr with
  | nil => intro st; simp [workerRun, countJobReady_nil]
  | cons m ms ih =>
    intro st
    cases hs : workerStep st m with
    | cont st1 out =>
      rw [show workerRun st (m :: ms) =
        { state := (workerRun st1 ms).state, out := out ++ (workerRun st1 ms).out,
          completed := (workerRun st1 ms).completed } from by simp [workerRun, hs]]
      rw [show (m :: ms).countP (isScheduleJobFor g j) =
        (if isScheduleJobFor g j m then 1 else 0) + ms.countP (isScheduleJobFor g j)
        from by rw [List.countP_cons]; omega]
      dsimp only
      have h1 := step_count_le g j st m st1 out hs
      have h2 := ih st1
      rw [countJobReady_append]
      omega
    | halt out =>
      rw [show workerRun st (m :: ms) =
        { state := st, out := out, completed := false } from by simp [workerRun, hs]]
      have hz : countJobReady g j out = 0 := by
        cases m with
        | leader lm =>
          cases lm with
          | shutdown =>
            rw [show out = [] from by
              have := hs; simp [workerStep] at this; exact this]
            rfl
          | executeGraph gid => simp [workerStep] at hs; split at hs <;> simp_all
          | scheduleJob g0 j0 a0 => simp [workerStep] at hs; split at hs <;> simp_all
        | driver dm =>
          cases dm with
          | shutdown =>
            rw [show out = [WorkerNotification.shutdown] from by
              have := hs; simp [workerStep] at this; exact this.symm]
            simp [countJobReady, List.countP_cons]
          | registerGraph jg => simp [workerStep] at hs
          | submitGraph gid => simp [workerStep] at hs
        | dataPlane dp => obtain ⟨j0, s0⟩ := dp; simp [workerStep] at hs
      dsimp only
      rw [hz]
      simp only [zero_add]
      omega
    | panic =>
      rw [show workerRun st (m :: ms) =
        { state := st, out := [], completed := false } from by simp [workerRun, hs]]
      dsimp only
      rw [countJobReady_nil]
      omega

/-- Runs decompose over concatenation when the first part completed. -/
theorem workerRun_append : ∀ (tr1 : List WMsg) (st : WState),
    (workerRun st tr1).completed = true → ∀ tr2 : List WMsg,
    workerRun st (tr1 ++ tr2) =
      { state := (workerRun (workerRun st tr1).state tr2).state,
        out := (workerRun st tr1).out ++ (workerRun (workerRun st tr1).state tr2).out,
        completed := (workerRun (workerRun st tr1).state tr2).completed } := by
  intro tr1
  induction tr1 with
  | nil => intro st _ tr2; simp [workerRun]
  | cons m ms ih =>
    intro st h tr2
    cases hs : workerStep st m with
    | cont st1 out =>
      have h' : (workerRun st1 ms).completed = true := by
        rw [show workerRun st (m :: ms) =
          { state := (workerRun st1 ms).state, out := out ++ (workerRun st1 ms).out,
            completed := (workerRun st1 ms).completed } from by
            simp [workerRun, hs]] at h
        exact h
      rw [show (m :: ms) ++ tr2 = m :: (ms ++ tr2) from rfl]
      rw [show workerRun st (m :: (ms ++ tr2)) =
        { state := (workerRun st1 (ms ++ tr2)).state,
          out := out ++ (workerRun st1 (ms ++ tr2)).out,
          completed := (workerRun st1 (ms ++ tr2)).completed } from by
          simp [workerRun, hs]]
      rw [show workerRun st (m :: ms) =
        { state := (workerRun st1 ms).state, out := out ++ (workerRun st1 ms).out,
          completed := (workerRun st1 ms).completed } from by
          simp [workerRun, hs]]
      rw [ih st1 h' tr2]
      simp
    | halt out =>
      rw [show workerRun st (m :: ms) =
        { state := st, out := out, completed := false } from by
          simp [workerRun, hs]] at h
      exact absurd h (by simp)
    | panic =>
      rw [show workerRun st (m :: ms) =
        { state := st, out := [], completed := false } from by
          simp [workerRun, hs]] at h
      exact absurd h (by simp)

/-- A successful `ScheduleJob(g, j)` seeds the pending memo of job `j` with
exactly the (de-duplicated) ids of `j`'s read and write streams, bound to
graph `g`. -/
theorem scheduleJob_seeds (g : JobGraphId) (j : Job) (st : WState)
    (a : List (Job × Addr)) (st' : WState) (out : List WorkerNotification)
    (jg : JobGraph) (op : AbstractOperator)
    (hstep : workerStep st (.leader (.scheduleJob g j a)) = .cont st' out)
    (hg : lookupA st.job_graphs g = some jg) (hop : jg.get_job j = some op) :
    lookupA st'.pending_stream_setups j =
      some (g, (op.read_streams ++ op.write_streams).dedup) := by
  unfold workerStep at hstep
  dsimp only at hstep
  cases hs : handleScheduleJob st g j a with
  | none => rw [hs] at hstep; exact absurd hstep (by simp)
  | some r =>
    obtain ⟨st1, out1⟩ := r
    rw [hs] at hstep
    dsimp only at hstep
    injection hstep with h1 h2
    unfold handleScheduleJob at hs
    rw [hg] at hs
    dsimp only at hs
    rw [hop] at hs
    dsimp only at hs
    cases hb : buildStreams jg op a with
    | none => rw [hb] at hs; exact absurd hs (by simp)
    | some ids =>
      rw [hb] at hs
      dsimp only at hs
      have hids := buildStreams_ids jg op a ids hb
      have hpair := Option.some.inj hs
      have hst1 : st1 = { st with
          pending_stream_setups := insertA st.pending_stream_setups j (g, ids.dedup),
          job_graph_to_job_state := insertA st.job_graph_to_job_state g
            (insertA ((lookupA st.job_graph_to_job_state g).getD []) j
              .scheduled) } :=
        (congrArg Prod.fst hpair).symm
      rw [← h1, hst1]
      rw [show ({ st with
          pending_stream_setups := insertA st.pending_stream_setups j (g, ids.dedup),
          job_graph_to_job_state := insertA st.job_graph_to_job_state g
            (insertA ((lookupA st.job_graph_to_job_state g).getD []) j
              .scheduled) } : WState).pending_stream_setups =
        insertA st.pending_stream_setups j (g, ids.dedup) from rfl]
      rw [lookupA_insertA_self, hids]

/-- Any `cont` step whose message neither schedules job `j` nor is a
`StreamReady` for `j` leaves `j`'s pending entry untouched. -/
theorem pending_preserved (j : Job) (st : WState) (m : WMsg) (st' : WState)
    (out : List WorkerNotification) (hstep : workerStep st m = .cont st' out)
    (hnotSR : ∀ j0 s, m = .dataPlane (.streamReady j0 s) → j0 ≠ j)
    (hnotSJ : isScheduleJobForJob j m = false) :
    lookupA st'.pending_stream_setups j = lookupA st.pending_stream_setups j := by
  cases m with
  | leader lm =>
    cases lm with
    | shutdown => exact absurd hstep (by simp [workerStep])
    | executeGraph gid =>
      unfold workerStep at hstep
      dsimp only at hstep
      cases he : handleExecuteGraph st gid with
      | none => rw [he] at hstep; exact absurd hstep (by simp)
      | some r =>
        rw [he] at hstep
        have hr := handleExecuteGraph_some st gid r he
        subst hr
        dsimp only at hstep
        injection hstep with h1 h2
        rw [← h1]
    | scheduleJob gid job addrs =>
      have hjob : job ≠ j := by
        intro hc
        subst hc
        simp [isScheduleJobForJob] at hnotSJ
      unfold workerStep at hstep
      dsimp only at hstep
      cases hs : handleScheduleJob st gid job addrs with
      | none => rw [hs] at hstep; exact absurd hstep (by simp)
      | some r =>
        obtain ⟨st1, out1⟩ := r
        rw [hs] at hstep
        dsimp only at hstep
        injection hstep with h1 h2
        obtain ⟨-, hcase⟩ := handleScheduleJob_char st gid job addrs st1 out1 hs
        rcases hcase with hsame | ⟨jg, op, ids, -, -, -, hnew⟩
        · rw [← h1, hsame]
        · rw [← h1, hnew]
          exact lookupA_insertA_ne _ _ (fun hc => hjob hc.symm)
  | driver dm =>
    cases dm with
    | registerGraph jg =>
      unfold workerStep handleDriverMessage at hstep
      dsimp only at hstep
      injection hstep with h1 h2
      rw [← h1]
    | submitGraph gid =>
      unfold workerStep handleDriverMessage at hstep
      dsimp only at hstep
      cases hl : lookupA st.job_graphs gid with
      | none =>
        rw [hl] at hstep
        dsimp only at hstep
        injection hstep with h1 h2
        rw [← h1]
      | some jg =>
        rw [hl] at hstep
        dsimp only at hstep
        injection hstep with h1 h2
        rw [← h1]
    | shutdown => exact absurd hstep (by simp [workerStep])
  | dataPlane dp =>
    obtain ⟨j0, s0⟩ := dp
    have hj0 : j0 ≠ j := hnotSR j0 s0 rfl
    have hstep' : workerStep st (.dataPlane (.streamReady j0 s0)) =
        .cont (handleStreamReady st j0 s0).1 (handleStreamReady st j0 s0).2 := by
      simp [workerStep]
    rw [hstep'] at hstep
    injection hstep with h1 h2
    rcases handleStreamReady_char st j0 s0 with ⟨-, heq⟩ | ⟨gid, pnd, hE, hcase⟩
    · rw [← h1, heq]
    · rcases hcase with ⟨-, heq⟩ | ⟨-, -, heq⟩ | ⟨-, -, heq⟩
      · rw [← h1, heq]
      · rw [← h1, heq]
        exact lookupA_insertA_ne _ _ (fun hc => hj0 hc.symm)
      · rw [← h1, heq]
        exact lookupA_eraseA_ne _ (fun hc => hj0 hc.symm)

/-- Draining the pending set: if job `j`'s entry binds it to `g` with a
non-empty duplicate-free set, the remaining trace contains a `StreamReady`
for every pending stream, no further `ScheduleJob` touches `j`, and the
Worker processes the whole trace, then `JobReady(g, j)` is sent. -/
theorem pending_drain (g : JobGraphId) (j : Job) :
    ∀ (tr : List WMsg) (st : WState) (pnd : List StreamId),
    lookupA st.pending_stream_setups j = some (g, pnd) →
    pnd.Nodup → pnd ≠ [] →
    (∀ s ∈ pnd, WMsg.dataPlane (.streamReady j s) ∈ tr) →
    tr.countP (isScheduleJobForJob j) = 0 →
    (workerRun st tr).completed = true →
    WorkerNotification.jobReady g j ∈ (workerRun st tr).out := by
  intro tr
  induction tr with
  | nil =>
    intro st pnd hE hnd hne hcov _ _
    obtain ⟨s, hs⟩ := List.exists_mem_of_ne_nil pnd hne
    exact absurd (hcov s hs) (by simp)
  | cons m ms ih =>
    intro st pnd hE hnd hne hcov hcnt hcomp
    cases hstep : workerStep st m with
    | halt out =>
      rw [show workerRun st (m :: ms) =
        { state := st, out := out, completed := false } from by
          simp [workerRun, hstep]] at hcomp
      exact absurd hcomp (by simp)
    | panic =>
      rw [show workerRun st (m :: ms) =
        { state := st, out := [], completed := false } from by
          simp [workerRun, hstep]] at hcomp
      exact absurd hcomp (by simp)
    | cont st1 out =>
      have hrw : workerRun st (m :: ms) =
          { state := (workerRun st1 ms).state, out := out ++ (workerRun st1 ms).out,
            completed := (workerRun st1 ms).completed } := by
        simp [workerRun, hstep]
      rw [hrw] at hcomp ⊢
      dsimp only at hcomp ⊢
      have hcnt1 : ms.countP (isScheduleJobForJob j) = 0 := by
        rw [List.countP_cons] at hcnt
        omega
      by_cases hSR : ∃ s0, m = .dataPlane (.streamReady j s0)
      · obtain ⟨s0, hm⟩ := hSR
        subst hm
        have hstep' : workerStep st (.dataPlane (.streamReady j s0)) =
            .cont (handleStreamReady st j s0).1 (handleStreamReady st j s0).2 := by
          simp [workerStep]
        rw [hstep'] at hstep
        injection hstep with h1 h2
        rcases handleStreamReady_char st j s0 with ⟨hnone, -⟩ | ⟨gid, pnd', hE', hcase⟩
        · rw [hE] at hnone; exact absurd hnone (by simp)
        · rw [hE] at hE'
          have hpair := Option.some.inj hE'
          have hgid : g = gid := congrArg Prod.fst hpair
          have hpnd : pnd = pnd' := congrArg Prod.snd hpair
          subst hgid
          subst hpnd
          rcases hcase with ⟨hnotmem, heq⟩ | ⟨hmem, hempF, heq⟩ | ⟨hmem, hempT, heq⟩
          · rw [heq] at h1 h2
            dsimp only at h1 h2
            apply List.mem_append.mpr
            refine Or.inr (ih st1 pnd (by rw [← h1]; exact hE) hnd hne ?_ hcnt1 hcomp)
            intro s hs
            have hms := hcov s hs
            rcases List.mem_cons.mp hms with heqm | hin
            · exfalso
              injection heqm with hdp
              injection hdp with hj hs0
              exact hnotmem (hs0 ▸ hs)
            · exact hin
          · rw [heq] at h1 h2
            dsimp only at h1 h2
            apply List.mem_append.mpr
            have hE1 : lookupA st1.pending_stream_setups j = some (g, pnd.erase s0) := by
              rw [← h1]
              exact lookupA_insertA_self _ _ _
            have hne1 : pnd.erase s0 ≠ [] := by
              intro hc
              rw [hc] at hempF
              simp at hempF
            refine Or.inr (ih st1 (pnd.erase s0) hE1 (hnd.erase s0) hne1 ?_ hcnt1 hcomp)
            intro s hs
            have hsp : s ≠ s0 ∧ s ∈ pnd := (List.Nodup.mem_erase_iff hnd).mp hs
            have hms := hcov s hsp.2
            rcases List.mem_cons.mp hms with heqm | hin
            · exfalso
              injection heqm with hdp
              injection hdp with hj hs0
              exact hsp.1 hs0
            · exact hin
          · rw [heq] at h1 h2
            dsimp only at h1 h2
            apply List.mem_append.mpr
            exact Or.inl (by rw [← h2]; exact List.mem_singleton.mpr rfl)
      · have hj0 : ∀ j0 s, m = .dataPlane (.streamReady j0 s) → j0 ≠ j := by
          intro j0 s hm hc
          subst hc
          exact hSR ⟨s, hm⟩
        have hSJ : isScheduleJobForJob j m = false := by
          cases hb : isScheduleJobForJob j m with
          | false => rfl
          | true =>
            rw [List.countP_cons, hb] at hcnt
            simp at hcnt
        have hpre := pending_preserved j st m st1 out hstep hj0 hSJ
        apply List.mem_append.mpr
        refine Or.inr (ih st1 pnd (by rw [hpre]; exact hE) hnd hne ?_ hcnt1 hcomp)
        intro s hs
        have hms := hcov s hs
        rcases List.mem_cons.mp hms with heqm | hin
        · exact absurd ⟨s, heqm.symm⟩ hSR
        · exact hin

/-- A completed run has completed every prefix. -/
theorem workerRun_completed_prefix : ∀ (tr1 : List WMsg) (st : WState)
    (tr2 : List WMsg), (workerRun st (tr1 ++ tr2)).completed = true →
    (workerRun st tr1).completed = true := by
  intro tr1
  induction tr1 with
  | nil => intro st tr2 _; simp [workerRun]
  | cons m ms ih =>
    intro st tr2 h
    cases hs : workerStep st m with
    | cont st1 out =>
      have h' := by
        rw [show workerRun st ((m :: ms) ++ tr2) =
          { state := (workerRun st1 (ms ++ tr2)).state,
            out := out ++ (workerRun st1 (ms ++ tr2)).out,
            completed := (workerRun st1 (ms ++ tr2)).completed } from by
            simp [workerRun, hs]] at h
        exact h
      simp only [workerRun, hs]
      exact ih st1 tr2 h'
    | halt out =>
      rw [show workerRun st ((m :: ms) ++ tr2) =
        { state := st, out := out, completed := false } from by
          simp [workerRun, hs]] at h
      exact absurd h (by simp)
    | panic =>
      rw [show workerRun st ((m :: ms) ++ tr2) =
        { state := st, out := [], completed := false } from by
          simp [workerRun, hs]] at h
      exact absurd h (by simp)

/-- C1: starting from a fresh Worker, for every `(g, j)`: (1) at every
prefix of the run the `JobReady(g, j)` messages sent never outnumber the
`ScheduleJob(g, j)` messages received — in particular none is sent before
the first `ScheduleJob(g, j)`; (2) when `ScheduleJob(g, j)` is delivered at
most once, `JobReady(g, j)` is sent at most once, so no later `StreamReady`
can cause a second one; (3) a `JobReady(g, j)` is only ever emitted by a
`StreamReady` notification for `j` that removes the last element of `j`'s
pending-stream set, bound at that moment to `g`; (4) that set is seeded at
`ScheduleJob(g, j)` with exactly the ids of `j`'s read and write streams;
and (5) once a `ScheduleJob(g, j)` succeeds, if a `StreamReady` arrives for
every seeded stream and the Worker keeps running (no panic or shutdown, no
further `ScheduleJob` for `j`), the `JobReady(g, j)` is sent. -/
theorem C1_job_ready_exactly_once (g : JobGraphId) (j : Job) (tr : List WMsg) :
    (∀ n, countJobReady g j (workerRun initWState (tr.take n)).out ≤
      (tr.take n).countP (isScheduleJobFor g j)) ∧
    (tr.countP (isScheduleJobFor g j) ≤ 1 →
      countJobReady g j (workerRun initWState tr).out ≤ 1) ∧
    (∀ st m, WorkerNotification.jobReady g j ∈ stepOut (workerStep st m) →
      ∃ s pnd, m = .dataPlane (.streamReady j s) ∧
        lookupA st.pending_stream_setups j = some (g, pnd) ∧
        s ∈ pnd ∧ pnd.erase s = []) ∧
    (∀ st a st' out jg op,
      workerStep st (.leader (.scheduleJob g j a)) = .cont st' out →
      lookupA st.job_graphs g = some jg → jg.get_job j = some op →
      lookupA st'.pending_stream_setups j =
        some (g, (op.read_streams ++ op.write_streams).dedup)) ∧
    (∀ tr1 a tr2, tr = tr1 ++ WMsg.leader (.scheduleJob g j a) :: tr2 →
      (workerRun initWState tr).completed = true →
      tr2.countP (isScheduleJobForJob j) = 0 →
      ∀ jg op, lookupA (workerRun initWState tr1).state.job_graphs g = some jg →
        jg.get_job j = some op →
        op.read_streams ++ op.write_streams ≠ [] →
        (∀ s ∈ op.read_streams ++ op.write_streams,
          WMsg.dataPlane (.streamReady j s) ∈ tr2) →
        WorkerNotification.jobReady g j ∈ (workerRun initWState tr).out) := by
  have hpend0 : pendN initWState g j = 0 := rfl
  refine ⟨?_, ?_, jobReady_emission g j, ?_, ?_⟩
  · intro n
    have := run_count_le g j (tr.take n) initWState
    rw [hpend0] at this
    omega
  · intro hsched
    have := run_count_le g j tr initWState
    rw [hpend0] at this
    omega
  · intro st a st' out jg op hstep hg hop
    exact scheduleJob_seeds g j st a st' out jg op hstep hg hop
  · intro tr1 a tr2 htr hcomp hcnt jg op hg hop hne hcov
    subst htr
    have hc1 : (workerRun initWState tr1).completed = true :=
      workerRun_completed_prefix tr1 initWState _ hcomp
    have happ := workerRun_append tr1 initWState hc1
      (WMsg.leader (.scheduleJob g j a) :: tr2)
    rw [happ] at hcomp ⊢
    dsimp only at hcomp ⊢
    apply List.mem_append.mpr
    refine Or.inr ?_
    cases hstep : workerStep (workerRun initWState tr1).state
        (.leader (.scheduleJob g j a)) with
    | halt out1 =>
      rw [show workerRun (workerRun initWState tr1).state
          (WMsg.leader (.scheduleJob g j a) :: tr2) =
        { state := (workerRun initWState tr1).state, out := out1,
          completed := false } from by simp [workerRun, hstep]] at hcomp
      exact absurd hcomp (by simp)
    | panic =>
      rw [show workerRun (workerRun initWState tr1).state
          (WMsg.leader (.scheduleJob g j a) :: tr2) =
        { state := (workerRun initWState tr1).state, out := [],
          completed := false } from by simp [workerRun, hstep]] at hcomp
      exact absurd hcomp (by simp)
    | cont st2 out2 =>
      have hE2 := scheduleJob_seeds g j (workerRun initWState tr1).state a st2 out2
        jg op hstep hg hop
      have hrw : workerRun (workerRun initWState tr1).state
          (WMsg.leader (.scheduleJob g j a) :: tr2) =
          { state := (workerRun st2 tr2).state,
            out := out2 ++ (workerRun st2 tr2).out,
            completed := (workerRun st2 tr2).completed } := by
        simp [workerRun, hstep]
      rw [hrw] at hcomp ⊢
      dsimp only at hcomp ⊢
      apply List.mem_append.mpr
      refine Or.inr ?_
      refine pending_drain g j tr2 st2 _ hE2 (List.nodup_dedup _) ?_ ?_ hcnt hcomp
      · intro hc
        exact hne ((List.dedup_eq_nil _).mp hc)
      · intro s hs
        exact hcov s (List.mem_dedup.mp hs)

/-- Witness for C1: a one-operator graph is registered, scheduled, its one
stream becomes ready, and the `JobReady` is sent exactly once. -/
theorem C1_job_ready_exactly_once_witness :
    let op0 : AbstractOperator := { id := 1, read_streams := [], write_streams := [5] }
    let str0 : AbstractStream :=
      { id := 5, source := Job.operator 1, destinations := [] }
    let jg0 : JobGraph := { id := "g", operators := [op0], streams := [str0] }
    let tr : List WMsg := [WMsg.driver (.registerGraph jg0),
      WMsg.leader (.scheduleJob "g" (Job.operator 1) []),
      WMsg.dataPlane (.streamReady (Job.operator 1) 5)]
    WorkerNotification.jobReady "g" (Job.operator 1) ∈
        (workerRun initWState tr).out ∧
      countJobReady "g" (Job.operator 1) (workerRun initWState tr).out ≤ 1 := by
  intro op0 str0 jg0 tr
  have h := C1_job_ready_exactly_once "g" (Job.operator 1) tr
  constructor
  · refine h.2.2.2.2 [WMsg.driver (.registerGraph jg0)] []
      [WMsg.dataPlane (.streamReady (Job.operator 1) 5)] rfl (by decide) (by decide)
      jg0 op0 (by decide) (by decide) (by decide) (by decide)
  · exact h.2.1 (by decide)

/-- C8 (counterexample): the recorded `JobState` does NOT only move forward
under a repeated `ScheduleJob`: after `RegisterGraph`, `ScheduleJob(g, j)`,
and the `StreamReady` that makes the job `Ready`, a second `ScheduleJob(g, j)`
overwrites the recorded state back to `Scheduled` — a back-transition from
`Ready` to `Scheduled`, contradicting the claim as stated (which includes
repeated `ScheduleJob` for the same job). -/
theorem C8_job_state_back_edge :
    let op0 : AbstractOperator := { id := 1, read_streams := [], write_streams := [5] }
    let str0 : AbstractStream :=
      { id := 5, source := Job.operator 1, destinations := [] }
    let jg0 : JobGraph := { id := "g", operators := [op0], streams := [str0] }
    let tr : List WMsg := [WMsg.driver (.registerGraph jg0),
      WMsg.leader (.scheduleJob "g" (Job.operator 1) []),
      WMsg.dataPlane (.streamReady (Job.operator 1) 5),
      WMsg.leader (.scheduleJob "g" (Job.operator 1) [])]
    jobStateOf (workerRun initWState (tr.take 3)).state "g" (Job.operator 1) =
        some JobState.ready ∧
      jobStateOf (workerRun initWState tr).state "g" (Job.operator 1) =
        some JobState.scheduled ∧
      JobState.rank (some JobState.scheduled) < JobState.rank (some JobState.ready) := by
  decide

/-- Recorded state rank `0` means nothing is recorded. -/
theorem rank_eq_zero_iff (o : Option JobState) : JobState.rank o = 0 ↔ o = none := by
  cases o with
  | none => simp [JobState.rank]
  | some s => cases s <;> simp [JobState.rank]

/-- The first rank recorded along a run is the starting state's rank. -/
theorem ranksAlong_head (g : JobGraphId) (j : Job) (st : WState) (tr : List WMsg) :
    (ranksAlong g j st tr).head? =
      some (JobState.rank (jobStateOf st g j)) := by
  cases tr <;> rfl

/-- Combined insert-lookup law. -/
theorem lookupA_insertA {α β : Type} [DecidableEq α] (l : List (α × β)) (k k' : α)
    (v : β) :
    lookupA (insertA l k v) k' = if k' = k then some v else lookupA l k' := by
  by_cases h : k' = k
  · subst h
    rw [lookupA_insertA_self, if_pos rfl]
  · rw [lookupA_insertA_ne _ _ h, if_neg h]

/-- The recorded state reads through the graph's state map with `[]` as the
default. -/
theorem jobStateOf_getD (st : WState) (g : JobGraphId) (j : Job) :
    jobStateOf st g j =
      lookupA ((lookupA st.job_graph_to_job_state g).getD []) j := by
  unfold jobStateOf
  cases lookupA st.job_graph_to_job_state g with
  | none => simp [lookupA]
  | some jmap => simp

/-- Effect of the `ScheduleJob` state write on every recorded state. -/
theorem scheduleInsert_lookup (st : WState) (gid : JobGraphId) (job : Job)
    (g' : JobGraphId) (j' : Job) :
    lookupA ((lookupA (insertA st.job_graph_to_job_state gid
        (insertA ((lookupA st.job_graph_to_job_state gid).getD []) job
          .scheduled)) g').getD []) j' =
      if g' = gid then
        (if j' = job then some JobState.scheduled else jobStateOf st gid j')
      else jobStateOf st g' j' := by
  rw [lookupA_insertA]
  by_cases hg : g' = gid
  · rw [if_pos hg, if_pos hg]
    simp only [Option.getD_some]
    rw [lookupA_insertA]
    by_cases hj : j' = job
    · rw [if_pos hj, if_pos hj]
    · rw [if_neg hj, if_neg hj, jobStateOf_getD]
  · rw [if_neg hg, if_neg hg, jobStateOf_getD]

/-- Effect of the `readyUpdate` state write on every recorded state. -/
theorem readyUpdate_lookup (st : WState) (gid : JobGraphId) (j0 : Job)
    (g' : JobGraphId) (j' : Job) :
    lookupA ((lookupA (readyUpdate st gid j0) g').getD []) j' =
      if g' = gid ∧ j' = j0 ∧ (jobStateOf st gid j0).isSome then
        some JobState.ready
      else jobStateOf st g' j' := by
  unfold readyUpdate
  cases hl : lookupA st.job_graph_to_job_state gid with
  | none =>
    have hcur : jobStateOf st gid j0 = none := by
      rw [jobStateOf_getD, hl]
      simp [lookupA]
    rw [if_neg (by simp [hcur]), jobStateOf_getD]
  | some jmap =>
    dsimp only
    cases hlj : lookupA jmap j0 with
    | none =>
      have hcur : jobStateOf st gid j0 = none := by
        rw [jobStateOf_getD, hl]
        simpa using hlj
      rw [if_neg (by simp [hcur]), jobStateOf_getD]
    | some old =>
      dsimp only
      have hcur : jobStateOf st gid j0 = some old := by
        rw [jobStateOf_getD, hl]
        simpa using hlj
      rw [lookupA_insertA]
      by_cases hg : g' = gid
      · rw [if_pos hg]
        simp only [Option.getD_some]
        rw [lookupA_insertA]
        by_cases hj : j' = j0
        · rw [if_pos hj, if_pos (by exact ⟨hg, hj, by simp [hcur]⟩)]
        · rw [if_neg hj, if_neg (by intro hc; exact hj hc.2.1)]
          rw [jobStateOf_getD, hg, hl]
          simp
      · rw [if_neg hg, if_neg (by intro hc; exact hg hc.1), jobStateOf_getD]

/-- Recorded job states never exceed `Ready` (only `Scheduled` and `Ready`
are ever written), preserved by every `cont` step. -/
theorem step_ranksBounded (st : WState) (m : WMsg) (st' : WState)
    (out : List WorkerNotification) (hstep : workerStep st m = .cont st' out)
    (hb : ∀ g' j', JobState.rank (jobStateOf st g' j') ≤ 2) :
    ∀ g' j', JobState.rank (jobStateOf st' g' j') ≤ 2 := by
  intro g' j'
  cases m with
  | leader lm =>
    cases lm with
    | shutdown => exact absurd hstep (by simp [workerStep])
    | executeGraph gid =>
      unfold workerStep at hstep
      dsimp only at hstep
      cases he : handleExecuteGraph st gid with
      | none => rw [he] at hstep; exact absurd hstep (by simp)
      | some r =>
        rw [he] at hstep
        have hr := handleExecuteGraph_some st gid r he
        subst hr
        dsimp only at hstep
        injection hstep with h1 h2
        rw [← h1]
        exact hb g' j'
    | scheduleJob gid job addrs =>
      unfold workerStep at hstep
      dsimp only at hstep
      cases hs : handleScheduleJob st gid job addrs with
      | none => rw [hs] at hstep; exact absurd hstep (by simp)
      | some r =>
        obtain ⟨st1, out1⟩ := r
        rw [hs] at hstep
        dsimp only at hstep
        injection hstep with h1 h2
        obtain ⟨-, hcase⟩ := handleScheduleJob_char st gid job addrs st1 out1 hs
        rcases hcase with hsame | ⟨jg, op, ids, -, -, -, hnew⟩
        · rw [← h1, hsame]; exact hb g' j'
        · rw [← h1, hnew, jobStateOf_getD]
          rw [show ({ st with
              pending_stream_setups :=
                insertA st.pending_stream_setups job (gid, ids.dedup),
              job_graph_to_job_state := insertA st.job_graph_to_job_state gid
                (insertA ((lookupA st.job_graph_to_job_state gid).getD []) job
                  .scheduled) } : WState).job_graph_to_job_state =
            insertA st.job_graph_to_job_state gid
              (insertA ((lookupA st.job_graph_to_job_state gid).getD []) job
                .scheduled) from rfl]
          rw [scheduleInsert_lookup]
          by_cases hg : g' = gid
          · rw [if_pos hg]
            by_cases hj : j' = job
            · rw [if_pos hj]; decide
            · rw [if_neg hj]; exact hb gid j'
          · rw [if_neg hg]; exact hb g' j'
  | driver dm =>
    cases dm with
    | registerGraph jg =>
      unfold workerStep handleDriverMessage at hstep
      dsimp only at hstep
      injection hstep with h1 h2
      rw [← h1]
      exact hb g' j'
    | submitGraph gid =>
      unfold workerStep handleDriverMessage at hstep
      dsimp only at hstep
      cases hl : lookupA st.job_graphs gid with
      | none =>
        rw [hl] at hstep
        dsimp only at hstep
        injection hstep with h1 h2
        rw [← h1]
        exact hb g' j'
      | some jg =>
        rw [hl] at hstep
        dsimp only at hstep
        injection hstep with h1 h2
        rw [← h1]
        exact hb g' j'
    | shutdown => exact absurd hstep (by simp [workerStep])
  | dataPlane dp =>
    obtain ⟨j0, s0⟩ := dp
    have hstep' : workerStep st (.dataPlane (.streamReady j0 s0)) =
        .cont (handleStreamReady st j0 s0).1 (handleStreamReady st j0 s0).2 := by
      simp [workerStep]
    rw [hstep'] at hstep
    injection hstep with h1 h2
    rcases handleStreamReady_char st j0 s0 with ⟨-, heq⟩ | ⟨gid, pnd, hE, hcase⟩
    · rw [← h1, heq]; exact hb g' j'
    · rcases hcase with ⟨-, heq⟩ | ⟨-, -, heq⟩ | ⟨-, -, heq⟩
      · rw [← h1, heq]; exact hb g' j'
      · rw [← h1, heq]; exact hb g' j'
      · rw [← h1, heq, jobStateOf_getD]
        rw [show ({ st with
            job_graph_to_job_state := readyUpdate st gid j0,
            pending_stream_setups := eraseA st.pending_stream_setups j0 } :
              WState).job_graph_to_job_state = readyUpdate st gid j0 from rfl]
        rw [readyUpdate_lookup]
        by_cases hc : g' = gid ∧ j' = j0 ∧ (jobStateOf st gid j0).isSome
        · rw [if_pos hc]; decide
        · rw [if_neg hc]; exact hb g' j'

/-- Any `cont` step whose message is not `ScheduleJob(g, j)` does not lower
`(g, j)`'s recorded rank, and records nothing new for `(g, j)` when nothing
was recorded. -/
theorem step_rank (g : JobGraphId) (j : Job) (st : WState) (m : WMsg)
    (st' : WState) (out : List WorkerNotification)
    (hstep : workerStep st m = .cont st' out)
    (hb : ∀ g' j', JobState.rank (jobStateOf st g' j') ≤ 2)
    (hnot : isScheduleJobFor g j m = false) :
    JobState.rank (jobStateOf st g j) ≤ JobState.rank (jobStateOf st' g j) ∧
    (jobStateOf st g j = none → jobStateOf st' g j = none) := by
  cases m with
  | leader lm =>
    cases lm with
    | shutdown => exact absurd hstep (by simp [workerStep])
    | executeGraph gid =>
      unfold workerStep at hstep
      dsimp only at hstep
      cases he : handleExecuteGraph st gid with
      | none => rw [he] at hstep; exact absurd hstep (by simp)
      | some r =>
        rw [he] at hstep
        have hr := handleExecuteGraph_some st gid r he
        subst hr
        dsimp only at hstep
        injection hstep with h1 h2
        rw [← h1]
        exact ⟨le_refl _, fun h => h⟩
    | scheduleJob gid job addrs =>
      unfold workerStep at hstep
      dsimp only at hstep
      cases hs : handleScheduleJob st gid job addrs with
      | none => rw [hs] at hstep; exact absurd hstep (by simp)
      | some r =>
        obtain ⟨st1, out1⟩ := r
        rw [hs] at hstep
        dsimp only at hstep
        injection hstep with h1 h2
        obtain ⟨-, hcase⟩ := handleScheduleJob_char st gid job addrs st1 out1 hs
        rcases hcase with hsame | ⟨jg, op, ids, -, -, -, hnew⟩
        · rw [← h1, hsame]; exact ⟨le_refl _, fun h => h⟩
        · have hnewState : jobStateOf st' g j =
              if g = gid then
                (if j = job then some JobState.scheduled else jobStateOf st gid j)
              else jobStateOf st g j := by
            rw [← h1, hnew, jobStateOf_getD]
            rw [show ({ st with
                pending_stream_setups :=
                  insertA st.pending_stream_setups job (gid, ids.dedup),
                job_graph_to_job_state := insertA st.job_graph_to_job_state gid
                  (insertA ((lookupA st.job_graph_to_job_state gid).getD []) job
                    .scheduled) } : WState).job_graph_to_job_state =
              insertA st.job_graph_to_job_state gid
                (insertA ((lookupA st.job_graph_to_job_state gid).getD []) job
                  .scheduled) from rfl]
            exact scheduleInsert_lookup st gid job g j
          rw [hnewState]
          by_cases hg : g = gid
          · have hjob : ¬j = job := by
              intro hc
              rw [hg, hc] at hnot
              simp [isScheduleJobFor] at hnot
            rw [if_pos hg, if_neg hjob, hg]
            exact ⟨le_refl _, fun h => h⟩
          · rw [if_neg hg]
            exact ⟨le_refl _, fun h => h⟩
  | driver dm =>
    cases dm with
    | registerGraph jg =>
      unfold workerStep handleDriverMessage at hstep
      dsimp only at hstep
      injection hstep with h1 h2
      rw [← h1]
      exact ⟨le_refl _, fun h => h⟩
    | submitGraph gid =>
      unfold workerStep handleDriverMessage at hstep
      dsimp only at hstep
      cases hl : lookupA st.job_graphs gid with
      | none =>
        rw [hl] at hstep
        dsimp only at hstep
        injection hstep with h1 h2
        rw [← h1]
        exact ⟨le_refl _, fun h => h⟩
      | some jg =>
        rw [hl] at hstep
        dsimp only at hstep
        injection hstep with h1 h2
        rw [← h1]
        exact ⟨le_refl _, fun h => h⟩
    | shutdown => exact absurd hstep (by simp [workerStep])
  | dataPlane dp =>
    obtain ⟨j0, s0⟩ := dp
    have hstep' : workerStep st (.dataPlane (.streamReady j0 s0)) =
        .cont (handleStreamReady st j0 s0).1 (handleStreamReady st j0 s0).2 := by
      simp [workerStep]
    rw [hstep'] at hstep
    injection hstep with h1 h2
    rcases handleStreamReady_char st j0 s0 with ⟨-, heq⟩ | ⟨gid, pnd, hE, hcase⟩
    · rw [← h1, heq]; exact ⟨le_refl _, fun h => h⟩
    · rcases hcase with ⟨-, heq⟩ | ⟨-, -, heq⟩ | ⟨-, -, heq⟩
      · rw [← h1, heq]; exact ⟨le_refl _, fun h => h⟩
      · rw [← h1, heq]; exact ⟨le_refl _, fun h => h⟩
      · have hnewState : jobStateOf st' g j =
            if g = gid ∧ j = j0 ∧ (jobStateOf st gid j0).isSome then
              some JobState.ready
            else jobStateOf st g j := by
          rw [← h1, heq, jobStateOf_getD]
          rw [show ({ st with
              job_graph_to_job_state := readyUpdate st gid j0,
              pending_stream_setups := eraseA st.pending_stream_setups j0 } :
                WState).job_graph_to_job_state = readyUpdate st gid j0 from rfl]
          exact readyUpdate_lookup st gid j0 g j
        rw [hnewState]
        by_cases hc : g = gid ∧ j = j0 ∧ (jobStateOf st gid j0).isSome
        · rw [if_pos hc]
          obtain ⟨hg, hj, hsome⟩ := hc
          have hcur : jobStateOf st g j = jobStateOf st gid j0 := by rw [hg, hj]
          constructor
          · have hbd := hb gid j0
            rw [hcur]
            cases hcv : jobStateOf st gid j0 with
            | none => simp [JobState.rank]
            | some v =>
              rw [hcv] at hbd
              simpa [JobState.rank] using hbd
          · intro hnone
            rw [hcur] at hnone
            rw [hnone] at hsome
            exact absurd hsome (by simp)
        · rw [if_neg hc]
          exact ⟨le_refl _, fun h => h⟩

/-- The chain of recorded ranks of `(g, j)` along a run is nondecreasing
when at most one `ScheduleJob(g, j)` remains and a positive current rank
implies none remain. -/
theorem ranks_chain (g : JobGraphId) (j : Job) : ∀ (tr : List WMsg) (st : WState),
    (∀ g' j', JobState.rank (jobStateOf st g' j') ≤ 2) →
    (JobState.rank (jobStateOf st g j) > 0 →
      tr.countP (isScheduleJobFor g j) = 0) →
    tr.countP (isScheduleJobFor g j) ≤ 1 →
    List.Chain' (· ≤ ·) (ranksAlong g j st tr) := by
  intro tr
  induction tr with
  | nil => intro st _ _ _; exact List.chain'_singleton _
  | cons m ms ih =>
    intro st hb hyp hcnt
    rw [show ranksAlong g j st (m :: ms) =
      JobState.rank (jobStateOf st g j) ::
        (match workerStep st m with
         | .cont st' _ => ranksAlong g j st' ms
         | _ => [JobState.rank (jobStateOf st g j)]) from rfl]
    cases hstep : workerStep st m with
    | halt out =>
      dsimp only
      exact List.chain'_pair.mpr (le_refl _)
    | panic =>
      dsimp only
      exact List.chain'_pair.mpr (le_refl _)
    | cont st1 out =>
      dsimp only
      apply List.chain'_cons'.mpr
      cases hSJ : isScheduleJobFor g j m with
      | true =>
        have hzero : JobState.rank (jobStateOf st g j) = 0 := by
          by_contra hnz
          have hpos : JobState.rank (jobStateOf st g j) > 0 := Nat.pos_of_ne_zero hnz
          have := hyp hpos
          rw [List.countP_cons, hSJ] at this
          simp at this
        have hms0 : ms.countP (isScheduleJobFor g j) = 0 := by
          rw [List.countP_cons, hSJ] at hcnt
          simp only [eq_self_iff_true, if_true] at hcnt
          omega
        constructor
        · intro b hbmem
          rw [hzero]
          exact Nat.zero_le b
        · exact ih st1 (step_ranksBounded st m st1 out hstep hb)
            (fun _ => hms0) (by omega)
      | false =>
        have hsr := step_rank g j st m st1 out hstep hb hSJ
        have hms1 : ms.countP (isScheduleJobFor g j) ≤ 1 := by
          rw [List.countP_cons, hSJ] at hcnt
          omega
        constructor
        · intro b hbmem
          rw [ranksAlong_head g j st1 ms] at hbmem
          have hb' : JobState.rank (jobStateOf st1 g j) = b := by simpa using hbmem
          rw [← hb']
          exact hsr.1
        · refine ih st1 (step_ranksBounded st m st1 out hstep hb) ?_ hms1
          intro hpos1
          have hpos : JobState.rank (jobStateOf st g j) > 0 := by
            by_contra hz
            have h0 : JobState.rank (jobStateOf st g j) = 0 := by omega
            have hnone := (rank_eq_zero_iff _).mp h0
            have := hsr.2 hnone
            rw [this] at hpos1
            simp [JobState.rank] at hpos1
          have := hyp hpos
          rw [List.countP_cons, hSJ] at this
          omega

/-- C8 (amended): the recorded `JobState` of every `(g, j)` only moves
forward along `Scheduled → Ready → Executing → Shutdown` across any sequence
of Leader, Driver and data-plane messages in which `ScheduleJob(g, j)` is
delivered at most once; a repeated `ScheduleJob(g, j)` is the one exception
and resets the recorded state to `Scheduled` (see the counterexample). -/
theorem C8_job_state_monotone (g : JobGraphId) (j : Job) (tr : List WMsg)
    (hsched : tr.countP (isScheduleJobFor g j) ≤ 1) :
    List.Chain' (· ≤ ·) (ranksAlong g j initWState tr) := by
  apply ranks_chain g j tr initWState
  · intro g' j'
    simp [jobStateOf, initWState, lookupA, JobState.rank]
  · intro hpos
    simp [jobStateOf, initWState, lookupA, JobState.rank] at hpos
  · exact hsched

/-- Witness for C8's amended theorem: the single-schedule trace of the C1
witness yields a nondecreasing chain of recorded ranks. -/
theorem C8_job_state_monotone_witness :
    let op0 : AbstractOperator := { id := 1, read_streams := [], write_streams := [5] }
    let str0 : AbstractStream :=
      { id := 5, source := Job.operator 1, destinations := [] }
    let jg0 : JobGraph := { id := "g", operators := [op0], streams := [str0] }
    let tr : List WMsg := [WMsg.driver (.registerGraph jg0),
      WMsg.leader (.scheduleJob "g" (Job.operator 1) []),
      WMsg.dataPlane (.streamReady (Job.operator 1) 5)]
    tr.countP (isScheduleJobFor "g" (Job.operator 1)) ≤ 1 ∧
      List.Chain' (· ≤ ·) (ranksAlong "g" (Job.operator 1) initWState tr) := by
  intro op0 str0 jg0 tr
  exact ⟨by decide, C8_job_state_monotone "g" (Job.operator 1) tr (by decide)⟩

end Erdos



